import Mathlib

/-!
Verification of the work-queue reconciler of KNAemailsender (src/Code.js).

The Google Apps Script code is shallowly embedded: spreadsheet cell values
become the inductive type `Val`, sheet ranges become lists of row structures,
and the two operations `loadOneDashboard`/`loadToWorkArea` ("Load") and
`syncDashboardToLog` ("Move") become pure functions over those lists.
JavaScript coercions that the source relies on (truthiness `v || ''`,
`v != null`, `String(v)`, `.trim()`, `.toLowerCase()`) are modelled
explicitly.
-/

/-- A spreadsheet cell value as seen by the Apps Script code: JS `null`,
JS `undefined`, a string, an (integer-valued) number, or a `Date`
(represented by its epoch milliseconds, as returned by `getTime()`). -/
inductive Val where
  | null : Val
  | undef : Val
  | str : String → Val
  | num : Int → Val
  | date : Int → Val
deriving DecidableEq, Repr

/-- Model of JS `String.prototype.trim`: strip leading and trailing
whitespace (working on the character list of the string). -/
def jsTrim (s : String) : String :=
  ⟨(((s.data.dropWhile Char.isWhitespace).reverse.dropWhile Char.isWhitespace).reverse)⟩

/-- Model of JS `String.prototype.toLowerCase` (per-character lowering). -/
def jsLower (s : String) : String :=
  ⟨s.data.map Char.toLower⟩

/-- Model of JS `String(v)` conversion. The rendering of a `Date` is opaque;
the code only ever converts dates to strings accidentally. -/
def jsToString : Val → String
  | .null => "null"
  | .undef => "undefined"
  | .str s => s
  | .num n => toString n
  | .date t => "Date@" ++ toString t

/-- JS truthiness of a cell value: `null`, `undefined`, `''` and `0` are
falsy, everything else (including any `Date` object) is truthy. -/
def jsTruthy : Val → Bool
  | .null => false
  | .undef => false
  | .str s => s ≠ ""
  | .num n => n ≠ 0
  | .date _ => true

/-- JS `v || ''`. -/
def jsOrEmptyStr (v : Val) : Val := if jsTruthy v then v else .str ""

/-- JS `v != null ? v : ''` (loose `!=`, so `undefined` also maps to `''`). -/
def jsIfNullEmpty : Val → Val
  | .null => .str ""
  | .undef => .str ""
  | v => v

/-- JS `v == null` (true for both `null` and `undefined`). -/
def jsIsNull : Val → Bool
  | .null => true
  | .undef => true
  | _ => false

/-- `(d && d.getTime) ? d.getTime() : (typeof d === 'number' ? d : 0)`
(Code.js lines 432, 444, 451): a `Date` yields its epoch milliseconds, a
number is taken as-is, everything else yields 0. -/
def jsDateMs : Val → Int
  | .date t => t
  | .num n => n
  | _ => 0

/-- `Math.floor(t / 86400000)` — the day bucket of an epoch-millisecond
timestamp (floor division, as JS `Math.floor` on the real quotient). -/
def jsDay (t : Int) : Int := Int.fdiv t 86400000

/-- `normalizeTrigger(t)` (Code.js 525-528): `null`/`undefined` map to the
empty string, anything else to `String(t).trim()`. -/
def normalizeTrigger (t : Val) : String :=
  if jsIsNull t then "" else jsTrim (jsToString t)

/-- The composite key of `loadOneDashboard` (Code.js 562-564):
`String(loginId || '').trim() + '|' + normalizeTrigger(triggerNum)`. -/
def key (loginId : Val) (triggerNum : Val) : String :=
  jsTrim (jsToString (jsOrEmptyStr loginId)) ++ "|" ++ normalizeTrigger triggerNum

/-- One row of a dashboard work area, columns I:N (Code.js 541-544, 252-258):
LoginID, Name, Email, Trigger #, Status, Notes. `c0`..`c5` are the 0-based
offsets within the 6-column slice; `syncDashboardToLog` reads the same
columns via `col.status - 4`, `col.status - 3`, `col.status - 1`. -/
structure WorkRow where
  c0 : Val
  c1 : Val
  c2 : Val
  c3 : Val
  c4 : Val
  c5 : Val
deriving DecidableEq, Repr

/-- One row of the dashboard source data, columns A..G as fetched by
`loadOneDashboard` (Code.js 573): the code reads `row[0]` (LoginID),
`row[1]` (Name), `row[4]` (the SEND EMAIL action flag), `row[emailCol]`
(Email, `emailCol` resolved from the headers with fallback 5 — abstracted
here as the field `cEmail`) and `row[6]` (Trigger). -/
structure DataRow where
  c0 : Val
  c1 : Val
  c4 : Val
  cEmail : Val
  c6 : Val
deriving DecidableEq, Repr

/-- One row of the Sent Log (Code.js 439-456): the Load code reads columns
A/D (Math LoginID/Date, indices 0/3) and E/H (Reading LoginID/Date,
indices 4/7). The unread Name and Trigger columns are omitted. -/
structure SentLogRow where
  c0 : Val
  c3 : Val
  c4 : Val
  c7 : Val
deriving DecidableEq, Repr

/-- One row of the Issue Log, 7 columns (Code.js 207, 461-487):
Subject, LoginID, Name, Trigger Number, Note, Date, Tag. -/
structure IssueLogRow where
  c0 : Val
  c1 : Val
  c2 : Val
  c3 : Val
  c4 : Val
  c5 : Val
  c6 : Val
deriving DecidableEq, Repr

/-- A record appended to one subject block of the Sent Log by Move
(Code.js 301, 316-331): LoginID, Name, Trigger, plus today's date. -/
structure SentAppend where
  loginId : Val
  name : Val
  trigger : Val
  date : Val
deriving DecidableEq, Repr

/-- A record appended to the Issue Log by Move (Code.js 297, 336-341):
Subject, LoginID, Name, Trigger, Note, today's date, Tag. -/
structure IssueAppend where
  subject : String
  loginId : Val
  name : Val
  trigger : Val
  note : Val
  date : Val
  tag : String
deriving DecidableEq, Repr

/-- Writing an Issue-Log append back as a sheet row (`issueData.push` and
`setValues`, Code.js 337-341). -/
def issueAppendToRow (a : IssueAppend) : IssueLogRow :=
  ⟨.str a.subject, a.loginId, a.name, a.trigger, a.note, a.date, .str a.tag⟩

/-!
## Move: `syncDashboardToLog` (Code.js 219-370)

The classification loop (lines 282-308) walks the sheet rows, collecting
the Issue-Log and Sent-Log appends together with the 0-based positions of
the classified rows (the source records sheet rows `3 + i`; position `i`
is used here). Row deletion (lines 349-355) then erases the recorded
positions in descending order. The clearing of status/notes cells of
Issue rows (lines 342-346) touches only rows that are subsequently
deleted, so it does not affect the final queue.
-/

/-- Accumulated classification results of the Move scan loop. -/
structure MoveScanResult where
  issueRows : List IssueAppend
  issueIdx : List Nat
  sentMathRows : List (Val × Val × Val)
  sentMathIdx : List Nat
  sentReadingRows : List (Val × Val × Val)
  sentReadingIdx : List Nat
deriving DecidableEq, Repr

/-- The Move classification loop (Code.js 282-308), processing rows from
position `i` on. The `note` read assumes a Notes column is present (the
standard dashboard layout of line 212); a missing Notes column would
substitute `''` for every note. -/
def moveScanGo (subject : String) (isMath : Bool) (i : Nat) :
    List WorkRow → MoveScanResult
  | [] => ⟨[], [], [], [], [], []⟩
  | row :: rest =>
    let s := moveScanGo subject isMath (i + 1) rest
    if jsIsNull row.c0 ∨ jsTrim (jsToString row.c0) = "" then s
    else
      let status := jsTrim (jsToString (jsOrEmptyStr row.c4))
      if status = "" ∨ jsLower status = "not sent" then s
      else
        let note := jsIfNullEmpty row.c5
        let sl := jsLower status
        if sl = "issue" ∨ sl = "issue - archive" then
          let tag := if sl = "issue - archive" then "Issue - Archive" else "Issue"
          { s with issueRows := ⟨subject, row.c0, row.c1, row.c3, note, .null, tag⟩ :: s.issueRows,
                   issueIdx := i :: s.issueIdx }
        else if sl = "sent" then
          if isMath then
            { s with sentMathRows := (row.c0, row.c1, row.c3) :: s.sentMathRows,
                     sentMathIdx := i :: s.sentMathIdx }
          else
            { s with sentReadingRows := (row.c0, row.c1, row.c3) :: s.sentReadingRows,
                     sentReadingIdx := i :: s.sentReadingIdx }
        else s

/-- Descending insertion used to model
`rowsToDelete.slice().sort((a, b) => b - a)` (Code.js 351). -/
def insertDesc (x : Nat) : List Nat → List Nat
  | [] => [x]
  | y :: ys => if y ≤ x then x :: y :: ys else y :: insertDesc x ys

/-- Sort a list of row indices in descending order. -/
def sortDesc (l : List Nat) : List Nat := l.foldr insertDesc []

/-- Sequential `sheet.deleteRow` calls on a descending index list
(Code.js 352-354 and 506-508): each step erases one position of the
current list. -/
def deleteRowsDesc {α : Type} (rows : List α) : List Nat → List α
  | [] => rows
  | i :: rest => deleteRowsDesc (rows.eraseIdx i) rest

/-- The outcome of one Move run: the rows appended to the two Sent Log
column blocks, the rows appended to the Issue Log, and the work-queue rows
that remain on the sheet. -/
structure MoveResult where
  sentMath : List SentAppend
  sentReading : List SentAppend
  issue : List IssueAppend
  newQueue : List WorkRow
deriving DecidableEq, Repr

/-- `syncDashboardToLog` (Code.js 219-370) on one dashboard: classify every
row, append Sent rows to the subject's Sent Log block with today's date,
append Issue rows to the Issue Log with today's date, and delete all
classified rows from the sheet (descending row order). -/
def syncDashboardToLog (isMath : Bool) (rows : List WorkRow) (today : Val) :
    MoveResult :=
  let subject := if isMath then "Math" else "Reading"
  let s := moveScanGo subject isMath 0 rows
  let rowsToDelete := s.issueIdx ++ s.sentMathIdx ++ s.sentReadingIdx
  { sentMath := s.sentMathRows.map fun p => ⟨p.1, p.2.1, p.2.2, today⟩
    sentReading := s.sentReadingRows.map fun p => ⟨p.1, p.2.1, p.2.2, today⟩
    issue := s.issueRows.map fun a => { a with date := today }
    newQueue := deleteRowsDesc rows (sortDesc rowsToDelete) }

/-!
## Load: `loadToWorkArea` (Code.js 416-522) and `loadOneDashboard`
(Code.js 551-685)

`loadToWorkArea` first digests the Sent Log into the per-subject set of
loginIds already contacted today, and the Issue Log into the per-subject
exclusion set (`Issue - Archive`), note map and re-surfaceable entries;
it then calls `loadOneDashboard` per subject and finally deletes the
brought-back rows from the Issue Log.
-/

/-- The two subjects ("parallel tracks") of the tool. -/
inductive Subject where
  | math : Subject
  | reading : Subject
deriving DecidableEq, Repr

/-- The Sent Log loginId column of a subject (index 0 for Math, 4 for
Reading; Code.js 443, 450). -/
def sentIdCol : Subject → SentLogRow → Val
  | .math, r => r.c0
  | .reading, r => r.c4

/-- The Sent Log date column of a subject (index 3 for Math, 7 for
Reading; Code.js 442, 449). -/
def sentDateCol : Subject → SentLogRow → Val
  | .math, r => r.c3
  | .reading, r => r.c7

/-- `loggedTodayBySubject` for one subject (Code.js 437-457): the trimmed
loginIds of Sent Log rows whose date cell falls into today's day bucket. -/
def loggedToday (subj : Subject) (todayDay : Int) : List SentLogRow → List String
  | [] => []
  | row :: rest =>
    let idv := sentIdCol subj row
    let dv := sentDateCol subj row
    if ¬ jsIsNull idv ∧ jsTrim (jsToString idv) ≠ "" ∧ ¬ jsIsNull dv
        ∧ jsDay (jsDateMs dv) = todayDay then
      jsTrim (jsToString idv) :: loggedToday subj todayDay rest
    else loggedToday subj todayDay rest

/-- `String(row[0] || '').trim()` subject resolution of an Issue Log row
(Code.js 467-468). -/
def subjOfRow (v : Val) : Option Subject :=
  let s := jsLower (jsTrim (jsToString (jsOrEmptyStr v)))
  if s = "math" then some .math
  else if s = "reading" then some .reading
  else none

/-- An element of `issueEntriesBySubject` (Code.js 485): a re-surfaceable
Issue-tagged log entry. `loginId` is the trimmed loginId string, `sheetRow`
the 1-based sheet row of the entry in the Issue Log (`2 + r`). -/
structure IssueEntry where
  loginId : String
  name : Val
  triggerNum : Val
  note : String
  sheetRow : Nat
deriving DecidableEq, Repr

/-- `issueNoteByLoginIdAndTrigger` for one subject: a nested JS dictionary
keyed by loginId and normalized trigger, later assignments overwriting
earlier ones. -/
def NoteMap : Type := String → String → Option String

/-- The per-subject digest of the Issue Log built by `loadToWorkArea`. -/
structure IssueMaps where
  exclude : List String
  noteMap : NoteMap
  entries : List IssueEntry

/-- The Issue Log digestion loop (Code.js 465-487) for one subject,
starting at 0-based data index `r` (sheet row `2 + r`). Rows of the other
subject, rows with a blank loginId and rows with an unknown tag are
skipped; `Issue - Archive` rows feed the exclusion set; `Issue` rows feed
the note map (later rows overwrite earlier ones) and the entry list. -/
def buildIssueMapsGo (subj : Subject) (r : Nat) : List IssueLogRow → IssueMaps
  | [] => ⟨[], fun _ _ => none, []⟩
  | row :: rest =>
    let acc := buildIssueMapsGo subj (r + 1) rest
    match subjOfRow row.c0 with
    | none => acc
    | some s =>
      if s ≠ subj then acc
      else
        let loginId := jsTrim (jsToString (jsIfNullEmpty row.c1))
        if loginId = "" then acc
        else
          let tag := jsTrim (jsToString (jsOrEmptyStr row.c6))
          if tag = "Issue - Archive" then
            { acc with exclude := loginId :: acc.exclude }
          else if tag = "Issue" then
            let note := jsToString (jsOrEmptyStr row.c4)
            let tr := normalizeTrigger row.c3
            { exclude := acc.exclude
              noteMap := fun i t =>
                match acc.noteMap i t with
                | some n => some n
                | none => if i = loginId ∧ t = tr then some note else none
              entries := ⟨loginId, row.c2, row.c3, note, 2 + r⟩ :: acc.entries }
          else acc

/-- The Issue Log digest of `loadToWorkArea` for one subject. -/
def buildIssueMaps (subj : Subject) (issueData : List IssueLogRow) : IssueMaps :=
  buildIssueMapsGo subj 0 issueData

/-- `String(v != null ? v : '').trim()` — the loginId normalization used for
dashboard candidates (Code.js 581, 595, 611, 661). -/
def candId (v : Val) : String := jsTrim (jsToString (jsIfNullEmpty v))

/-- `String(v || '').trim()` — the loginId normalization used for leftover
work-area rows and the email backfill (Code.js 567, 654). -/
def keepId (v : Val) : String := jsTrim (jsToString (jsOrEmptyStr v))

/-- The leftover phase of `loadOneDashboard` (Code.js 565-571): every
existing work-area row with a non-blank (truthy) loginId is kept verbatim
and its composite key registered. Returns the registered keys and the kept
rows, in sheet order. -/
def leftoverPhase : List WorkRow → List String × List WorkRow
  | [] => ([], [])
  | row :: rest =>
    let id := keepId row.c0
    let st := leftoverPhase rest
    if id = "" then st
    else (key (.str id) row.c3 :: st.1, row :: st.2)

/-- The candidate loop of `loadOneDashboard` (Code.js 578-591): dashboard
rows whose action flag is `send email` (case-insensitively) and whose
loginId is non-blank, not logged today and not archived become work rows;
the status is `Issue` with the note-map note exactly when that note is a
non-empty string (JS truthiness of `note`), else `Not Sent` with note `''`. -/
def candidateRows (loggedTodayIds excludeFromLoad : List String) (noteMap : NoteMap) :
    List DataRow → List WorkRow
  | [] => []
  | row :: rest =>
    let tail := candidateRows loggedTodayIds excludeFromLoad noteMap rest
    if jsLower (jsTrim (jsToString (jsOrEmptyStr row.c4))) ≠ "send email" then tail
    else
      let id := candId row.c0
      if id = "" then tail
      else if id ∈ loggedTodayIds then tail
      else if id ∈ excludeFromLoad then tail
      else
        let email := if jsIsNull row.cEmail then "" else jsToString row.cEmail
        let note := match noteMap id (normalizeTrigger row.c6) with
          | some s => s
          | none => ""
        let status := if note ≠ "" then "Issue" else "Not Sent"
        ⟨row.c0, row.c1, .str email, row.c6, .str status, .str note⟩ :: tail

/-- The merge loop of `loadOneDashboard` (Code.js 592-600): candidates whose
key is not yet registered are appended; first-seen wins. Returns the final
key set and the appended rows. -/
def mergePhase (ks : List String) : List WorkRow → List String × List WorkRow
  | [] => (ks, [])
  | row :: rest =>
    let k := key (.str (candId row.c0)) row.c3
    if k ∈ ks then mergePhase ks rest
    else
      let st := mergePhase (k :: ks) rest
      (st.1, row :: st.2)

/-- The dashboard membership check of the re-surface loop (Code.js 608-620):
the first data row whose trimmed loginId matches `id` *and* whose action
flag is `send email`; yields that row's email cell as a string. -/
def findInDashboard (data : List DataRow) (id : String) : Option String :=
  data.findSome? fun row =>
    if candId row.c0 = id
        ∧ jsLower (jsTrim (jsToString (jsOrEmptyStr row.c4))) = "send email" then
      some (if jsIsNull row.cEmail then "" else jsToString row.cEmail)
    else none

/-- The composite key registered for a re-surfaced Issue entry
(`key(id, tr)` with `id = String(ent.loginId).trim()`, Code.js 603-605). -/
def entKey (ent : IssueEntry) : String :=
  key (.str (jsTrim ent.loginId)) ent.triggerNum

/-- The work row pushed for a brought-back Issue entry (Code.js 631). -/
def resurfacedRow (ent : IssueEntry) (email : String) : WorkRow :=
  ⟨.str ent.loginId, ent.name, .str email, ent.triggerNum, .str "Issue", .str ent.note⟩

/-- The re-surface loop of `loadOneDashboard` (Code.js 601-633): an Issue
entry is brought back only if its key is unregistered, its loginId is
dashboard-eligible, and it is neither logged today nor archived. The email
falls back to the subject's Data sheet lookup (`getEmailFromDataSheet`,
abstracted as `dse`). Returns the final keys, the appended rows, and the
entries recorded in `broughtBackKeys`. -/
def resurfacePhase (data : List DataRow) (loggedTodayIds excludeFromLoad : List String)
    (dse : String → String) (ks : List String) :
    List IssueEntry → List String × List WorkRow × List IssueEntry
  | [] => (ks, [], [])
  | ent :: rest =>
    let id := jsTrim ent.loginId
    if entKey ent ∈ ks then resurfacePhase data loggedTodayIds excludeFromLoad dse ks rest
    else
      match findInDashboard data id with
      | none => resurfacePhase data loggedTodayIds excludeFromLoad dse ks rest
      | some email0 =>
        if id ∈ loggedTodayIds then
          resurfacePhase data loggedTodayIds excludeFromLoad dse ks rest
        else if id ∈ excludeFromLoad then
          resurfacePhase data loggedTodayIds excludeFromLoad dse ks rest
        else
          let email := if email0 = "" ∨ jsTrim email0 = "" then dse id else email0
          let st := resurfacePhase data loggedTodayIds excludeFromLoad dse (entKey ent :: ks) rest
          (st.1, resurfacedRow ent email :: st.2.1, ent :: st.2.2)

/-- The email lookup of the backfill pass (Code.js 658-666): the email cell
of the first data row whose trimmed loginId matches, or `''`. -/
def lookupEmailInData (data : List DataRow) (id : String) : String :=
  match data.findSome? fun row =>
      if candId row.c0 = id then
        some (if jsIsNull row.cEmail then "" else jsToString row.cEmail)
      else none with
  | some e => e
  | none => ""

/-- The per-row email backfill (Code.js 652-677): a written row with a
non-blank loginId and a blank email gets the email from the dashboard data,
falling back to the Data sheet; the row is updated only when the result is
non-blank. -/
def fillRow (data : List DataRow) (dse : String → String) (row : WorkRow) : WorkRow :=
  let loginId := keepId row.c0
  let email := jsTrim (jsToString (jsOrEmptyStr row.c2))
  if loginId ≠ "" ∧ email = "" then
    let e1 := lookupEmailInData data loginId
    let newEmail := if e1 = "" ∨ jsTrim e1 = "" then dse loginId else e1
    if newEmail ≠ "" ∧ jsTrim newEmail ≠ "" then { row with c2 := .str newEmail }
    else row
  else row

/-- The verification/backfill pass over the written work area
(Code.js 647-682). -/
def fillEmails (data : List DataRow) (dse : String → String)
    (merged : List WorkRow) : List WorkRow :=
  merged.map (fillRow data dse)

/-- The outcome of one `loadOneDashboard` run: the work-queue rows written
to the sheet, and the Issue entries recorded in `broughtBackKeys` (whose
Issue Log rows `loadToWorkArea` then deletes). -/
structure LoadResult where
  merged : List WorkRow
  broughtBack : List IssueEntry
deriving Repr

/-- `loadOneDashboard` (Code.js 551-685): leftover preservation, candidate
pull, key-based merge, Issue re-surfacing, and the email backfill pass. -/
def loadOneDashboard (existing : List WorkRow)
    (loggedTodayIds excludeFromLoad : List String) (noteMap : NoteMap)
    (issueEntries : List IssueEntry) (data : List DataRow)
    (dse : String → String) : LoadResult :=
  let st1 := leftoverPhase existing
  let out := candidateRows loggedTodayIds excludeFromLoad noteMap data
  let st2 := mergePhase st1.1 out
  let st3 := resurfacePhase data loggedTodayIds excludeFromLoad dse st2.1 issueEntries
  ⟨fillEmails data dse (st1.2 ++ st2.2 ++ st3.2.1), st3.2.2⟩

/-- One subject's slice of `loadToWorkArea` (Code.js 416-522): digest the
Sent Log (`todayDay` is the day bucket of the spreadsheet's `TODAY()`) and
the Issue Log, then run `loadOneDashboard` on that subject's dashboard. -/
def loadSubject (existing : List WorkRow) (sentData : List SentLogRow)
    (issueData : List IssueLogRow) (data : List DataRow)
    (dse : String → String) (todayDay : Int) (subj : Subject) : LoadResult :=
  let logged := loggedToday subj todayDay sentData
  let maps := buildIssueMaps subj issueData
  loadOneDashboard existing logged maps.exclude maps.noteMap maps.entries data dse

/-- First-occurrence deduplication
`.filter((r, i, arr) => arr.indexOf(r) === i)` (Code.js 505). -/
def dedupFirstGo (seen : List Nat) : List Nat → List Nat
  | [] => []
  | x :: xs =>
    if x ∈ seen then dedupFirstGo seen xs
    else x :: dedupFirstGo (x :: seen) xs

/-- First-occurrence deduplication of a row list. -/
def dedupFirst (l : List Nat) : List Nat := dedupFirstGo [] l

/-- The Issue Log after the bring-back deletion of `loadToWorkArea`
(Code.js 504-510): the recorded sheet rows (`2 + r`, here mapped back to
0-based data indices) are deduplicated, sorted descending and deleted. -/
def issueLogAfterLoad (issueData : List IssueLogRow)
    (broughtBack : List IssueEntry) : List IssueLogRow :=
  deleteRowsDesc issueData
    (sortDesc (dedupFirst (broughtBack.map fun e => e.sheetRow - 2)))

/-!
## Fallible Move

Store writes can throw; `syncDashboardToLog` performs its three appends in
a fixed order (Sent/Math at line 316, Sent/Reading at 324, Issue at 333),
each only when its batch is non-empty, and clears/deletes queue rows only
after all appends. An exception aborts the function (the `catch` at line
365 alerts and rethrows); nothing already appended is rolled back. The
`fail*` flags say which of the three appends would throw. -/
structure MoveFailState where
  sentMathLog : List SentAppend
  sentReadingLog : List SentAppend
  issueLog : List IssueAppend
  queue : List WorkRow
  failed : Bool
deriving DecidableEq, Repr

/-- `syncDashboardToLog` with fallible appends: the log fields hold what
was appended before the run ended; `failed` records whether an append threw
(aborting the rest of the Move). -/
def syncDashboardToLogFallible (isMath : Bool) (rows : List WorkRow) (today : Val)
    (failSentMath failSentReading failIssue : Bool) : MoveFailState :=
  let subject := if isMath then "Math" else "Reading"
  let s := moveScanGo subject isMath 0 rows
  if s.sentMathRows ≠ [] ∧ failSentMath then ⟨[], [], [], rows, true⟩
  else
    let smLog := s.sentMathRows.map fun p => SentAppend.mk p.1 p.2.1 p.2.2 today
    if s.sentReadingRows ≠ [] ∧ failSentReading then ⟨smLog, [], [], rows, true⟩
    else
      let srLog := s.sentReadingRows.map fun p => SentAppend.mk p.1 p.2.1 p.2.2 today
      if s.issueRows ≠ [] ∧ failIssue then ⟨smLog, srLog, [], rows, true⟩
      else
        let isLog := s.issueRows.map fun a => { a with date := today }
        let rowsToDelete := s.issueIdx ++ s.sentMathIdx ++ s.sentReadingIdx
        ⟨smLog, srLog, isLog, deleteRowsDesc rows (sortDesc rowsToDelete), false⟩

/-!
## Claim-side characterizations

These definitions restate, in direct filter/predicate form, what the
imperative loops above compute; the theorems below prove the two agree.
-/

/-- The trimmed status string of a work row as Move reads it. -/
def moveStatus (r : WorkRow) : String := jsTrim (jsToString (jsOrEmptyStr r.c4))

/-- Move skips a row iff its loginId cell is null/blank (Code.js 285). -/
def hasLogin (r : WorkRow) : Bool :=
  !(jsIsNull r.c0) && (jsTrim (jsToString r.c0) != "")

/-- A row Move classifies into the Issue Log. -/
def issueClass (r : WorkRow) : Bool :=
  hasLogin r && !(moveStatus r == "" || jsLower (moveStatus r) == "not sent")
    && (jsLower (moveStatus r) == "issue" || jsLower (moveStatus r) == "issue - archive")

/-- A row Move classifies into the Sent Log. -/
def sentClass (r : WorkRow) : Bool :=
  hasLogin r && !(moveStatus r == "" || jsLower (moveStatus r) == "not sent")
    && !(jsLower (moveStatus r) == "issue" || jsLower (moveStatus r) == "issue - archive")
    && (jsLower (moveStatus r) == "sent")

/-- A row Move classifies (and hence removes from the queue). -/
def classified (r : WorkRow) : Bool := issueClass r || sentClass r

/-- The Issue Log tag Move writes for an issue-classified row. -/
def issueTag (r : WorkRow) : String :=
  if jsLower (moveStatus r) = "issue - archive" then "Issue - Archive" else "Issue"

/-- The Issue append Move produces for an issue-classified row. -/
def issueAppendOf (subject : String) (today : Val) (r : WorkRow) : IssueAppend :=
  ⟨subject, r.c0, r.c1, r.c3, jsIfNullEmpty r.c5, today, issueTag r⟩

/-- The Sent append Move produces for a sent-classified row. -/
def sentAppendOf (today : Val) (r : WorkRow) : SentAppend :=
  ⟨r.c0, r.c1, r.c3, today⟩

/-- The composite `(loginId, triggerNumber)` key of a work row, under the
code's own normalization (`candId` together with `normalizeTrigger`). -/
def claimKey (w : WorkRow) : String :=
  candId w.c0 ++ "|" ++ normalizeTrigger w.c3

/-- Keep the elements of `rows` whose position (counting from `n`) is not
listed in `D` — the declarative reading of index-based row deletion. -/
def keepFrom {α : Type} (D : List Nat) : Nat → List α → List α
  | _, [] => []
  | n, x :: xs => if n ∈ D then keepFrom D (n + 1) xs else x :: keepFrom D (n + 1) xs

/-- The positions (counting from `n`) of the elements satisfying `p` — the
declarative reading of the index lists the Move scan records. -/
def positionsFrom {α : Type} (p : α → Bool) : Nat → List α → List Nat
  | _, [] => []
  | n, x :: xs =>
    if p x then n :: positionsFrom p (n + 1) xs else positionsFrom p (n + 1) xs

/-- The character-list body of `jsTrim`. -/
def trimList (l : List Char) : List Char :=
  ((l.dropWhile Char.isWhitespace).reverse.dropWhile Char.isWhitespace).reverse

/-!
## Lemmas: the JS string model
-/

theorem jsTrim_eq_trimList (s : String) : jsTrim s = ⟨trimList s.data⟩ := rfl

theorem dropWhile_self_idem {α : Type} (p : α → Bool) :
    ∀ l : List α, (l.dropWhile p).dropWhile p = l.dropWhile p
  | [] => rfl
  | x :: xs => by
    cases hp : p x
    · simp [List.dropWhile_cons, hp]
    · simp [List.dropWhile_cons, hp, dropWhile_self_idem p xs]

theorem head_dropWhile_false {α : Type} (p : α → Bool) (l : List α) (a : α)
    (h : (l.dropWhile p).head? = some a) : p a = false := by
  have h2 := List.head?_dropWhile_not p l
  rw [h] at h2
  exact h2

theorem dropWhile_eq_self_of_head {α : Type} (p : α → Bool) (l : List α)
    (h : ∀ a, l.head? = some a → p a = false) : l.dropWhile p = l := by
  cases l with
  | nil => rfl
  | cons x xs => simp [List.dropWhile_cons, h x rfl]

theorem trimList_idem (l : List Char) : trimList (trimList l) = trimList l := by
  unfold trimList
  set w := Char.isWhitespace with hw
  set A := l.dropWhile w with hA
  set u := A.reverse.dropWhile w with hu
  have hrev : u.reverse.reverse = u := List.reverse_reverse u
  have hnolead : ∀ a, u.reverse.head? = some a → w a = false := by
    intro a ha
    cases hcase : u with
    | nil => rw [hcase] at ha; simp at ha
    | cons b bs =>
      have hne : u ≠ [] := by rw [hcase]; simp
      have hsuff : u <:+ A.reverse := by rw [hu]; exact List.dropWhile_suffix w
      obtain ⟨pre, hpre⟩ := hsuff
      have hlast : u.reverse.head? = u.getLast? := List.head?_reverse u
      have hlast2 : u.getLast? = A.reverse.getLast? := by
        rw [← hpre, List.getLast?_append_of_ne_nil pre hne]
      have hlast3 : A.reverse.getLast? = A.head? := List.getLast?_reverse A
      rw [hlast, hlast2, hlast3] at ha
      exact head_dropWhile_false w l a ha
  rw [dropWhile_eq_self_of_head w u.reverse hnolead, hrev,
    dropWhile_self_idem w A.reverse]

theorem jsTrim_idem (s : String) : jsTrim (jsTrim s) = jsTrim s :=
  congrArg String.mk (trimList_idem s.data)

theorem jsOrEmptyStr_str (s : String) : jsOrEmptyStr (.str s) = .str s := by
  by_cases h : s = "" <;> simp [jsOrEmptyStr, jsTruthy, h]

theorem candId_str (s : String) : candId (.str s) = jsTrim s := rfl

theorem keepId_str (s : String) : keepId (.str s) = jsTrim s := by
  rw [keepId, jsOrEmptyStr_str]; rfl

theorem key_str (s : String) (t : Val) :
    key (.str s) t = jsTrim s ++ "|" ++ normalizeTrigger t := by
  rw [key, jsOrEmptyStr_str]; rfl

theorem key_candId (v : Val) (t : Val) :
    key (.str (candId v)) t = candId v ++ "|" ++ normalizeTrigger t := by
  rw [key_str, candId, jsTrim_idem]

theorem key_candId_claimKey (w : WorkRow) :
    key (.str (candId w.c0)) w.c3 = claimKey w := key_candId w.c0 w.c3

theorem jsTrim_empty : jsTrim "" = "" := rfl

theorem keepId_eq_candId (v : Val) (h : keepId v ≠ "") :
    candId v = keepId v ∧ jsTruthy v = true := by
  cases v with
  | null => exact absurd rfl h
  | undef => exact absurd rfl h
  | str s =>
    rcases eq_or_ne s "" with hs | hs
    · subst hs; exact absurd (keepId_str "") h
    · exact ⟨by rw [candId_str, keepId_str], by simp [jsTruthy, hs]⟩
  | num n =>
    rcases eq_or_ne n 0 with hn | hn
    · subst hn; exact absurd rfl h
    · constructor
      · show jsTrim (jsToString (jsIfNullEmpty (.num n)))
            = jsTrim (jsToString (jsOrEmptyStr (.num n)))
        have h1 : jsIfNullEmpty (.num n) = .num n := rfl
        have h2 : jsOrEmptyStr (.num n) = .num n := by
          simp [jsOrEmptyStr, jsTruthy, hn]
        rw [h1, h2]
      · simp [jsTruthy, hn]
  | date t => exact ⟨rfl, rfl⟩

theorem key_keepId_claimKey (w : WorkRow) (h : keepId w.c0 ≠ "") :
    key (.str (keepId w.c0)) w.c3 = claimKey w := by
  rw [key_str, keepId, jsTrim_idem, ← keepId]
  rw [← (keepId_eq_candId w.c0 h).1]
  rfl

/-!
## Lemmas: descending index deletion equals positional filtering
-/

theorem keepFrom_all_lt {α : Type} (D : List Nat) :
    ∀ (n : Nat) (rows : List α), (∀ j ∈ D, j < n) → keepFrom D n rows = rows
  | _, [], _ => rfl
  | n, x :: xs, h => by
    have hn : n ∉ D := fun hmem => absurd (h n hmem) (lt_irrefl n)
    simp only [keepFrom, if_neg hn]
    rw [keepFrom_all_lt D (n + 1) xs (fun j hj => Nat.lt_succ_of_lt (h j hj))]

theorem keepFrom_cons_erase {α : Type} (i : Nat) (D : List Nat)
    (hD : ∀ j ∈ D, j < i) (rows : List α) :
    ∀ n, n ≤ i → keepFrom (i :: D) n rows = keepFrom D n (rows.eraseIdx (i - n)) := by
  induction rows with
  | nil => intro n _; simp [keepFrom, List.eraseIdx_nil]
  | cons x xs ih =>
    intro n hn
    by_cases hni : n = i
    · subst hni
      have hsub : n - n = 0 := Nat.sub_self n
      rw [hsub, List.eraseIdx_cons_zero]
      have hmem : n ∈ n :: D := List.mem_cons_self n D
      rw [keepFrom, if_pos hmem]
      rw [keepFrom_all_lt (n :: D) (n + 1) xs
        (by intro j hj; rcases List.mem_cons.mp hj with h | h
            · omega
            · exact Nat.lt_succ_of_lt (hD j h))]
      rw [keepFrom_all_lt D n xs (fun j hj => hD j hj)]
    · have hlt : n < i := lt_of_le_of_ne hn hni
      have hsub : i - n = (i - (n + 1)) + 1 := by omega
      rw [hsub, List.eraseIdx_cons_succ]
      have hmem : (n ∈ i :: D) ↔ n ∈ D := by
        simp [List.mem_cons, hni]
      by_cases hD2 : n ∈ D
      · rw [keepFrom, if_pos (hmem.mpr hD2), keepFrom, if_pos hD2]
        exact ih (n + 1) hlt
      · rw [keepFrom, if_neg (fun c => hD2 (hmem.mp c)), keepFrom, if_neg hD2]
        rw [ih (n + 1) hlt]

theorem deleteRowsDesc_eq_keepFrom {α : Type} :
    ∀ (D : List Nat) (rows : List α), D.Pairwise (fun a b => b < a) →
      deleteRowsDesc rows D = keepFrom D 0 rows
  | [], rows, _ => by
    rw [deleteRowsDesc, keepFrom_all_lt [] 0 rows (by intro j hj; cases hj)]
  | i :: rest, rows, h => by
    have h1 : ∀ j ∈ rest, j < i := (List.pairwise_cons.mp h).1
    have h2 : rest.Pairwise (fun a b => b < a) := (List.pairwise_cons.mp h).2
    rw [deleteRowsDesc, deleteRowsDesc_eq_keepFrom rest _ h2]
    rw [keepFrom_cons_erase i rest h1 rows 0 (Nat.zero_le i)]
    rfl

theorem keepFrom_congr {α : Type} (D₁ D₂ : List Nat)
    (h : ∀ j, j ∈ D₁ ↔ j ∈ D₂) (rows : List α) :
    ∀ n, keepFrom D₁ n rows = keepFrom D₂ n rows := by
  induction rows with
  | nil => intro n; rfl
  | cons x xs ih =>
    intro n
    by_cases hm : n ∈ D₁
    · rw [keepFrom, if_pos hm, keepFrom, if_pos ((h n).mp hm), ih]
    · rw [keepFrom, if_neg hm, keepFrom, if_neg (fun c => hm ((h n).mpr c)), ih]

theorem positionsFrom_ge {α : Type} (p : α → Bool) :
    ∀ (rows : List α) (n j : Nat), j ∈ positionsFrom p n rows → n ≤ j
  | [], _, _, h => by cases h
  | x :: xs, n, j, h => by
    by_cases hp : p x
    · rw [positionsFrom, if_pos hp] at h
      rcases List.mem_cons.mp h with h | h
      · omega
      · have := positionsFrom_ge p xs (n + 1) j h; omega
    · rw [positionsFrom, if_neg hp] at h
      have := positionsFrom_ge p xs (n + 1) j h; omega

theorem keepFrom_positions_filter {α : Type} (p : α → Bool) :
    ∀ (rows : List α) (n : Nat) (D : List Nat),
      (∀ j, n ≤ j → (j ∈ D ↔ j ∈ positionsFrom p n rows)) →
      keepFrom D n rows = rows.filter (fun r => !(p r))
  | [], n, D, _ => rfl
  | x :: xs, n, D, h => by
    have hnotmem : n ∉ positionsFrom p (n + 1) xs := fun c => by
      have := positionsFrom_ge p xs (n + 1) n c; omega
    have htail : ∀ j, n + 1 ≤ j → (j ∈ D ↔ j ∈ positionsFrom p (n + 1) xs) := by
      intro j hj
      have := h j (by omega)
      by_cases hp : p x
      · rw [positionsFrom, if_pos hp] at this
        rw [this, List.mem_cons]
        constructor
        · rintro (h1 | h1)
          · omega
          · exact h1
        · intro h1; exact Or.inr h1
      · rw [positionsFrom, if_neg hp] at this
        exact this
    have ihres := keepFrom_positions_filter p xs (n + 1) D htail
    by_cases hp : p x
    · have hmem : n ∈ D := by
        rw [h n (le_refl n), positionsFrom, if_pos hp]
        exact List.mem_cons_self n _
      rw [keepFrom, if_pos hmem, ihres, List.filter_cons]
      simp [hp]
    · have hmem : n ∉ D := by
        rw [h n (le_refl n), positionsFrom, if_neg hp]
        exact hnotmem
      rw [keepFrom, if_neg hmem, ihres, List.filter_cons]
      simp [hp]

theorem positionsFrom_or {α : Type} (p₁ p₂ : α → Bool) :
    ∀ (rows : List α) (n j : Nat),
      j ∈ positionsFrom (fun r => p₁ r || p₂ r) n rows ↔
        j ∈ positionsFrom p₁ n rows ∨ j ∈ positionsFrom p₂ n rows
  | [], _, _ => by simp [positionsFrom]
  | x :: xs, n, j => by
    have ih := positionsFrom_or p₁ p₂ xs (n + 1) j
    cases h1 : p₁ x <;> cases h2 : p₂ x <;>
      simp [positionsFrom, h1, h2, List.mem_cons, ih] <;> tauto

theorem positionsFrom_nodup {α : Type} (p : α → Bool) :
    ∀ (rows : List α) (n : Nat), (positionsFrom p n rows).Nodup
  | [], _ => List.nodup_nil
  | x :: xs, n => by
    by_cases hp : p x
    · rw [positionsFrom, if_pos hp]
      refine List.nodup_cons.mpr ⟨fun c => ?_, positionsFrom_nodup p xs (n + 1)⟩
      have := positionsFrom_ge p xs (n + 1) n c; omega
    · rw [positionsFrom, if_neg hp]
      exact positionsFrom_nodup p xs (n + 1)

theorem positionsFrom_append_nodup {α : Type} (p₁ p₂ : α → Bool)
    (hdisj : ∀ r, ¬(p₁ r = true ∧ p₂ r = true)) :
    ∀ (rows : List α) (n : Nat),
      (positionsFrom p₁ n rows ++ positionsFrom p₂ n rows).Nodup
  | [], _ => List.nodup_nil
  | x :: xs, n => by
    have ih := positionsFrom_append_nodup p₁ p₂ hdisj xs (n + 1)
    have hge : n ∉ positionsFrom p₁ (n + 1) xs ++ positionsFrom p₂ (n + 1) xs := by
      intro c
      rcases List.mem_append.mp c with c | c
      · have := positionsFrom_ge p₁ xs (n + 1) n c; omega
      · have := positionsFrom_ge p₂ xs (n + 1) n c; omega
    cases h1 : p₁ x <;> cases h2 : p₂ x
    · simpa [positionsFrom, h1, h2] using ih
    · rw [positionsFrom, if_neg (by simp [h1]), positionsFrom, if_pos (by simp [h2])]
      rw [List.nodup_middle]
      exact List.nodup_cons.mpr ⟨hge, ih⟩
    · rw [positionsFrom, if_pos (by simp [h1]), positionsFrom, if_neg (by simp [h2])]
      rw [List.cons_append]
      exact List.nodup_cons.mpr ⟨hge, ih⟩
    · exact absurd ⟨h1, h2⟩ (hdisj x)

/-!
## Lemmas: descending sort
-/

theorem mem_insertDesc (x : Nat) :
    ∀ (l : List Nat) (a : Nat), a ∈ insertDesc x l ↔ a = x ∨ a ∈ l
  | [], a => by simp [insertDesc]
  | y :: ys, a => by
    by_cases h : y ≤ x
    · simp [insertDesc, h, List.mem_cons]
    · simp only [insertDesc, if_neg h, List.mem_cons, mem_insertDesc x ys a]
      tauto

theorem mem_sortDesc : ∀ (l : List Nat) (a : Nat), a ∈ sortDesc l ↔ a ∈ l
  | [], a => Iff.rfl
  | x :: xs, a => by
    show a ∈ insertDesc x (sortDesc xs) ↔ _
    rw [mem_insertDesc, mem_sortDesc xs a, List.mem_cons]

theorem insertDesc_sorted (x : Nat) :
    ∀ (l : List Nat), l.Pairwise (fun a b => b ≤ a) →
      (insertDesc x l).Pairwise (fun a b => b ≤ a)
  | [], _ => by simp [insertDesc]
  | y :: ys, h => by
    obtain ⟨hy, hys⟩ := List.pairwise_cons.mp h
    by_cases hle : y ≤ x
    · rw [insertDesc, if_pos hle]
      refine List.pairwise_cons.mpr ⟨?_, h⟩
      intro z hz
      rcases List.mem_cons.mp hz with hz | hz
      · omega
      · have := hy z hz; omega
    · rw [insertDesc, if_neg hle]
      refine List.pairwise_cons.mpr ⟨?_, insertDesc_sorted x ys hys⟩
      intro z hz
      rcases (mem_insertDesc x ys z).mp hz with hz | hz
      · omega
      · exact hy z hz

theorem sortDesc_sorted : ∀ (l : List Nat), (sortDesc l).Pairwise (fun a b => b ≤ a)
  | [] => List.Pairwise.nil
  | x :: xs => insertDesc_sorted x (sortDesc xs) (sortDesc_sorted xs)

theorem insertDesc_nodup (x : Nat) :
    ∀ (l : List Nat), x ∉ l → l.Nodup → (insertDesc x l).Nodup
  | [], _, _ => List.nodup_cons.mpr ⟨by simp, List.nodup_nil⟩
  | y :: ys, hx, h => by
    obtain ⟨hy, hys⟩ := List.nodup_cons.mp h
    by_cases hle : y ≤ x
    · rw [insertDesc, if_pos hle]
      exact List.nodup_cons.mpr ⟨hx, h⟩
    · rw [insertDesc, if_neg hle]
      refine List.nodup_cons.mpr ⟨?_, insertDesc_nodup x ys
        (fun c => hx (List.mem_cons_of_mem y c)) hys⟩
      intro c
      rcases (mem_insertDesc x ys y).mp c with c | c
      · omega
      · exact hy c

theorem sortDesc_nodup : ∀ (l : List Nat), l.Nodup → (sortDesc l).Nodup
  | [], _ => List.nodup_nil
  | x :: xs, h => by
    obtain ⟨hx, hxs⟩ := List.nodup_cons.mp h
    exact insertDesc_nodup x (sortDesc xs)
      (fun c => hx ((mem_sortDesc xs x).mp c)) (sortDesc_nodup xs hxs)

theorem sortDesc_strict (l : List Nat) (h : l.Nodup) :
    (sortDesc l).Pairwise (fun a b => b < a) := by
  have h1 := sortDesc_sorted l
  have h2 := sortDesc_nodup l h
  exact (h1.and h2).imp (fun hab => lt_of_le_of_ne hab.1 (Ne.symm hab.2))

/-!
## Lemmas: the Move scan refines filter/map form
-/

theorem hasLogin_false_of_skip (r : WorkRow)
    (h : jsIsNull r.c0 = true ∨ jsTrim (jsToString r.c0) = "") :
    hasLogin r = false := by
  rcases h with h | h <;> simp [hasLogin, h]

theorem issueClass_of_hasLogin_false (r : WorkRow) (h : hasLogin r = false) :
    issueClass r = false := by simp [issueClass, h]

theorem sentClass_of_hasLogin_false (r : WorkRow) (h : hasLogin r = false) :
    sentClass r = false := by simp [sentClass, h]

theorem issueClass_sentClass_disjoint (r : WorkRow) :
    ¬(issueClass r = true ∧ sentClass r = true) := by
  rintro ⟨h1, h2⟩
  simp only [issueClass, Bool.and_eq_true, Bool.or_eq_true, beq_iff_eq] at h1
  simp only [sentClass, Bool.and_eq_true, Bool.or_eq_true, beq_iff_eq,
    Bool.not_eq_true', Bool.or_eq_false_iff, beq_eq_false_iff_ne] at h2
  exact absurd h1.2 (by
    rcases h2 with ⟨⟨_, hno⟩, _⟩
    push_neg
    exact hno)

/-- The Move classification loop computes, field by field, the filter/map
and position-list characterizations. -/
theorem moveScanGo_spec (subject : String) (isMath : Bool) :
    ∀ (rows : List WorkRow) (i : Nat),
      moveScanGo subject isMath i rows =
        ⟨(rows.filter issueClass).map
            (fun r => ⟨subject, r.c0, r.c1, r.c3, jsIfNullEmpty r.c5, .null, issueTag r⟩),
          positionsFrom issueClass i rows,
          if isMath then (rows.filter sentClass).map (fun r => (r.c0, r.c1, r.c3)) else [],
          if isMath then positionsFrom sentClass i rows else [],
          if isMath then [] else (rows.filter sentClass).map (fun r => (r.c0, r.c1, r.c3)),
          if isMath then [] else positionsFrom sentClass i rows⟩
  | [], i => by cases isMath <;> simp [moveScanGo, positionsFrom]
  | row :: rest, i => by
    have ih := moveScanGo_spec subject isMath rest (i + 1)
    by_cases t1 : jsIsNull row.c0 = true ∨ jsTrim (jsToString row.c0) = ""
    · have hic := issueClass_of_hasLogin_false row (hasLogin_false_of_skip row t1)
      have hsc := sentClass_of_hasLogin_false row (hasLogin_false_of_skip row t1)
      rw [moveScanGo, if_pos t1, ih]
      cases isMath <;>
        simp [List.filter_cons, hic, hsc, positionsFrom]
    · have hlog : hasLogin row = true := by
        push_neg at t1
        simp [hasLogin, t1.1, t1.2]
      by_cases t2 : jsTrim (jsToString (jsOrEmptyStr row.c4)) = ""
          ∨ jsLower (jsTrim (jsToString (jsOrEmptyStr row.c4))) = "not sent"
      · have hact : (moveStatus row == "" || jsLower (moveStatus row) == "not sent") = true := by
          rcases t2 with h | h <;> simp [moveStatus, h]
        have hic : issueClass row = false := by simp [issueClass, hact]
        have hsc : sentClass row = false := by simp [sentClass, hact]
        rw [moveScanGo, if_neg t1]
        simp only [if_pos t2]
        rw [ih]
        cases isMath <;>
          simp [List.filter_cons, hic, hsc, positionsFrom]
      · have hact : (moveStatus row == "" || jsLower (moveStatus row) == "not sent") = false := by
          push_neg at t2
          simp [moveStatus, t2.1, t2.2]
        obtain ⟨t2a, t2b⟩ := not_or.mp t2
        by_cases t3 : jsLower (jsTrim (jsToString (jsOrEmptyStr row.c4))) = "issue"
            ∨ jsLower (jsTrim (jsToString (jsOrEmptyStr row.c4))) = "issue - archive"
        · have hic : issueClass row = true := by
            rcases t3 with h | h <;> simp [issueClass, hlog, moveStatus, h, t2a, t2b]
          have hsc : sentClass row = false := by
            have hd := issueClass_sentClass_disjoint row
            rcases Bool.eq_false_or_eq_true (sentClass row) with h | h
            · exact absurd ⟨hic, h⟩ hd
            · exact h
          rw [moveScanGo, if_neg t1]
          simp only [if_neg t2, if_pos t3]
          rw [ih]
          cases isMath <;>
            simp [List.filter_cons, hic, hsc, positionsFrom, issueTag, moveStatus]
        · have hii : (jsLower (moveStatus row) == "issue"
              || jsLower (moveStatus row) == "issue - archive") = false := by
            push_neg at t3
            simp [moveStatus, t3.1, t3.2]
          have hic : issueClass row = false := by simp [issueClass, hii]
          by_cases t4 : jsLower (jsTrim (jsToString (jsOrEmptyStr row.c4))) = "sent"
          · have hsc : sentClass row = true := by
              simp [sentClass, hlog, hii, moveStatus, t4, t2a, t2b]
            rw [moveScanGo, if_neg t1]
            simp only [if_neg t2, if_neg t3, if_pos t4]
            rw [ih]
            cases isMath <;>
              simp [List.filter_cons, hic, hsc, positionsFrom]
          · have hsc : sentClass row = false := by
              simp [sentClass, moveStatus, t4]
            rw [moveScanGo, if_neg t1]
            simp only [if_neg t2, if_neg t3, if_neg t4]
            rw [ih]
            cases isMath <;>
              simp [List.filter_cons, hic, hsc, positionsFrom]

theorem classified_eq_or :
    classified = fun r => issueClass r || sentClass r := rfl

/-- Move, in declarative form: the appends are exactly the images of the
classified rows, and the remaining queue is exactly the unclassified rows. -/
theorem syncDashboardToLog_spec (isMath : Bool) (rows : List WorkRow) (today : Val) :
    syncDashboardToLog isMath rows today =
      ⟨ if isMath then (rows.filter sentClass).map (sentAppendOf today) else [],
        if isMath then [] else (rows.filter sentClass).map (sentAppendOf today),
        (rows.filter issueClass).map
          (issueAppendOf (if isMath then "Math" else "Reading") today),
        rows.filter (fun r => !(classified r)) ⟩ := by
  rw [syncDashboardToLog, moveScanGo_spec]
  have hD : ∀ (D : List Nat),
      (∀ j, j ∈ D ↔ j ∈ positionsFrom classified 0 rows) → D.Nodup →
      deleteRowsDesc rows (sortDesc D) = rows.filter (fun r => !(classified r)) := by
    intro D hmem hnd
    rw [deleteRowsDesc_eq_keepFrom (sortDesc D) rows (sortDesc_strict D hnd)]
    rw [keepFrom_congr (sortDesc D) D (fun j => mem_sortDesc D j) rows 0]
    exact keepFrom_positions_filter classified rows 0 D (fun j _ => hmem j)
  have hmem : ∀ j, j ∈ positionsFrom issueClass 0 rows ++ positionsFrom sentClass 0 rows
      ↔ j ∈ positionsFrom classified 0 rows := by
    intro j
    rw [classified_eq_or, positionsFrom_or, List.mem_append]
  have hnd := positionsFrom_append_nodup issueClass sentClass
    issueClass_sentClass_disjoint rows 0
  cases isMath
  · simp only [MoveResult.mk.injEq]
    refine ⟨?_, ?_, ?_, ?_⟩
    · rfl
    · simp only [if_neg (Bool.false_ne_true), List.map_map]
      exact List.map_congr_left fun a _ => rfl
    · simp only [List.map_map]
      exact List.map_congr_left fun a _ => rfl
    · simp only [if_neg (Bool.false_ne_true), List.append_nil]
      exact hD _ hmem hnd
  · simp only [MoveResult.mk.injEq]
    refine ⟨?_, ?_, ?_, ?_⟩
    · simp only [eq_self_iff_true, if_true, List.map_map]
      exact List.map_congr_left fun a _ => rfl
    · rfl
    · simp only [List.map_map]
      exact List.map_congr_left fun a _ => rfl
    · simp only [eq_self_iff_true, if_true, List.append_nil]
      exact hD _ hmem hnd

/-!
## Lemmas: the Load phases
-/

theorem leftoverPhase_acc :
    ∀ e : List WorkRow, (leftoverPhase e).2 = e.filter fun w => !(keepId w.c0 == "")
  | [] => rfl
  | row :: rest => by
    by_cases h : keepId row.c0 = ""
    · rw [leftoverPhase, if_pos h, List.filter_cons]
      have hb : (!(keepId row.c0 == "")) = false := by simp [h]
      rw [hb, if_neg Bool.false_ne_true]
      exact leftoverPhase_acc rest
    · rw [leftoverPhase, if_neg h, List.filter_cons]
      have hb : (!(keepId row.c0 == "")) = true := by simp [h]
      rw [hb, if_pos rfl]
      exact congrArg (row :: ·) (leftoverPhase_acc rest)

theorem leftoverPhase_keys :
    ∀ e : List WorkRow, (leftoverPhase e).1 = (leftoverPhase e).2.map claimKey
  | [] => rfl
  | row :: rest => by
    by_cases h : keepId row.c0 = ""
    · rw [leftoverPhase, if_pos h]
      exact leftoverPhase_keys rest
    · rw [leftoverPhase, if_neg h]
      simp only [List.map_cons]
      rw [key_keepId_claimKey row h, leftoverPhase_keys rest]

theorem leftoverPhase_mem_self :
    ∀ (e : List WorkRow) (w : WorkRow), w ∈ (leftoverPhase e).2 → w ∈ e := by
  intro e w h
  rw [leftoverPhase_acc] at h
  exact List.mem_of_mem_filter h

theorem leftoverPhase_all (e : List WorkRow)
    (h : ∀ w ∈ e, keepId w.c0 ≠ "") : (leftoverPhase e).2 = e := by
  rw [leftoverPhase_acc]
  apply List.filter_eq_self.mpr
  intro w hw
  simp [h w hw]

/-- Every candidate row carries a dashboard row's loginId/name/trigger
cells and passed the logged-today, archive and non-blank guards. -/
theorem candidateRows_mem (logged excl : List String) (nm : NoteMap) :
    ∀ (data : List DataRow) (w : WorkRow), w ∈ candidateRows logged excl nm data →
      (∃ d ∈ data, w.c0 = d.c0) ∧ candId w.c0 ∉ logged ∧ candId w.c0 ∉ excl
        ∧ candId w.c0 ≠ ""
  | [], w, h => by cases h
  | row :: rest, w, h => by
    have tail : w ∈ candidateRows logged excl nm rest →
        (∃ d ∈ rest, w.c0 = d.c0) ∧ candId w.c0 ∉ logged ∧ candId w.c0 ∉ excl
          ∧ candId w.c0 ≠ "" := candidateRows_mem logged excl nm rest w
    have wrap : (∃ d ∈ rest, w.c0 = d.c0) → ∃ d ∈ row :: rest, w.c0 = d.c0 := by
      rintro ⟨d, hd, he⟩; exact ⟨d, List.mem_cons_of_mem row hd, he⟩
    rw [candidateRows] at h
    by_cases t1 : jsLower (jsTrim (jsToString (jsOrEmptyStr row.c4))) ≠ "send email"
    · rw [if_pos t1] at h
      obtain ⟨h1, h2⟩ := tail h
      exact ⟨wrap h1, h2⟩
    · rw [if_neg t1] at h
      by_cases t2 : candId row.c0 = ""
      · rw [if_pos t2] at h
        obtain ⟨h1, h2⟩ := tail h
        exact ⟨wrap h1, h2⟩
      · rw [if_neg t2] at h
        by_cases t3 : candId row.c0 ∈ logged
        · rw [if_pos t3] at h
          obtain ⟨h1, h2⟩ := tail h
          exact ⟨wrap h1, h2⟩
        · rw [if_neg t3] at h
          by_cases t4 : candId row.c0 ∈ excl
          · rw [if_pos t4] at h
            obtain ⟨h1, h2⟩ := tail h
            exact ⟨wrap h1, h2⟩
          · rw [if_neg t4] at h
            rcases List.mem_cons.mp h with h | h
            · subst h
              exact ⟨⟨row, List.mem_cons_self row rest, rfl⟩, t3, t4, t2⟩
            · obtain ⟨h1, h2⟩ := tail h
              exact ⟨wrap h1, h2⟩

/-- Every candidate row's status/note fields follow the note-map lookup,
with status `Issue` exactly for a non-empty note. -/
theorem candidateRows_status (logged excl : List String) (nm : NoteMap) :
    ∀ (data : List DataRow) (w : WorkRow), w ∈ candidateRows logged excl nm data →
      w.c5 = .str ((nm (candId w.c0) (normalizeTrigger w.c3)).getD "")
        ∧ w.c4 = .str (if (nm (candId w.c0) (normalizeTrigger w.c3)).getD "" = ""
            then "Not Sent" else "Issue")
  | [], w, h => by cases h
  | row :: rest, w, h => by
    have tail := candidateRows_status logged excl nm rest w
    rw [candidateRows] at h
    by_cases t1 : jsLower (jsTrim (jsToString (jsOrEmptyStr row.c4))) ≠ "send email"
    · rw [if_pos t1] at h; exact tail h
    · rw [if_neg t1] at h
      by_cases t2 : candId row.c0 = ""
      · rw [if_pos t2] at h; exact tail h
      · rw [if_neg t2] at h
        by_cases t3 : candId row.c0 ∈ logged
        · rw [if_pos t3] at h; exact tail h
        · rw [if_neg t3] at h
          by_cases t4 : candId row.c0 ∈ excl
          · rw [if_pos t4] at h; exact tail h
          · rw [if_neg t4] at h
            rcases List.mem_cons.mp h with h | h
            · subst h
              cases hnm : nm (candId row.c0) (normalizeTrigger row.c6) with
              | none => simp [hnm, Option.getD]
              | some s =>
                by_cases hs : s = ""
                · subst hs; simp [hnm, Option.getD]
                · simp [hnm, Option.getD, hs]
            · exact tail h

theorem mergePhase_sub (ks : List String) (out : List WorkRow) :
    ∀ w ∈ (mergePhase ks out).2, w ∈ out := by
  induction out generalizing ks with
  | nil => intro w h; cases h
  | cons row rest ih =>
    intro w h
    rw [mergePhase] at h
    by_cases hk : key (.str (candId row.c0)) row.c3 ∈ ks
    · rw [if_pos hk] at h
      exact List.mem_cons_of_mem row (ih ks w h)
    · rw [if_neg hk] at h
      rcases List.mem_cons.mp h with h | h
      · exact h ▸ List.mem_cons_self row rest
      · exact List.mem_cons_of_mem row (ih _ w h)

theorem mergePhase_fresh (ks : List String) (out : List WorkRow) :
    ∀ w ∈ (mergePhase ks out).2, claimKey w ∉ ks := by
  induction out generalizing ks with
  | nil => intro w h; cases h
  | cons row rest ih =>
    intro w h
    rw [mergePhase] at h
    by_cases hk : key (.str (candId row.c0)) row.c3 ∈ ks
    · rw [if_pos hk] at h
      exact ih ks w h
    · rw [if_neg hk] at h
      rcases List.mem_cons.mp h with h | h
      · subst h
        rw [← key_candId_claimKey w]
        exact hk
      · have := ih _ w h
        intro c
        exact this (List.mem_cons_of_mem _ c)

theorem mergePhase_keys_iff (ks : List String) (out : List WorkRow) :
    ∀ k, k ∈ (mergePhase ks out).1 ↔ k ∈ ks ∨ k ∈ (mergePhase ks out).2.map claimKey := by
  induction out generalizing ks with
  | nil => intro k; simp [mergePhase]
  | cons row rest ih =>
    intro k
    rw [mergePhase]
    by_cases hk : key (.str (candId row.c0)) row.c3 ∈ ks
    · rw [if_pos hk]
      exact ih ks k
    · rw [if_neg hk]
      simp only [List.map_cons, List.mem_cons]
      rw [ih (key (.str (candId row.c0)) row.c3 :: ks) k]
      rw [key_candId_claimKey row]
      simp only [List.mem_cons]
      tauto

theorem mergePhase_nodup (ks : List String) (out : List WorkRow) :
    ((mergePhase ks out).2.map claimKey).Nodup := by
  induction out generalizing ks with
  | nil => exact List.nodup_nil
  | cons row rest ih =>
    rw [mergePhase]
    by_cases hk : key (.str (candId row.c0)) row.c3 ∈ ks
    · rw [if_pos hk]; exact ih ks
    · rw [if_neg hk]
      simp only [List.map_cons]
      refine List.nodup_cons.mpr ⟨?_, ih _⟩
      intro c
      rcases List.mem_map.mp c with ⟨w, hw, he⟩
      have := mergePhase_fresh _ rest w hw
      rw [he, key_candId_claimKey row] at this
      exact this (List.mem_cons_self _ _)

theorem mergePhase_covers (ks : List String) (out : List WorkRow) :
    ∀ w ∈ out, claimKey w ∈ (mergePhase ks out).1 := by
  induction out generalizing ks with
  | nil => intro w h; cases h
  | cons row rest ih =>
    intro w h
    rw [mergePhase]
    by_cases hk : key (.str (candId row.c0)) row.c3 ∈ ks
    · rw [if_pos hk]
      rcases List.mem_cons.mp h with h | h
      · subst h
        refine (mergePhase_keys_iff ks rest (claimKey w)).mpr (Or.inl ?_)
        rw [← key_candId_claimKey w]
        exact hk
      · exact ih ks w h
    · rw [if_neg hk]
      rcases List.mem_cons.mp h with h | h
      · subst h
        refine (mergePhase_keys_iff _ rest (claimKey w)).mpr (Or.inl ?_)
        rw [← key_candId_claimKey w]
        exact List.mem_cons_self _ _
      · exact ih _ w h

theorem mergePhase_skip_all :
    ∀ (out : List WorkRow) (ks : List String), (∀ w ∈ out, claimKey w ∈ ks) →
      mergePhase ks out = (ks, [])
  | [], _, _ => rfl
  | row :: rest, ks, h => by
    rw [mergePhase]
    have hk : key (.str (candId row.c0)) row.c3 ∈ ks := by
      rw [key_candId_claimKey row]
      exact h row (List.mem_cons_self row rest)
    rw [if_pos hk]
    exact mergePhase_skip_all rest ks fun w hw => h w (List.mem_cons_of_mem row hw)

theorem claimKey_resurfacedRow (ent : IssueEntry) (email : String) :
    claimKey (resurfacedRow ent email) = entKey ent := by
  simp only [claimKey, entKey, resurfacedRow, candId_str, key_str, jsTrim_idem]

theorem resurfacePhase_cons_skip (data : List DataRow) (lg ex : List String)
    (dse : String → String) (ks : List String) (ent : IssueEntry)
    (rest : List IssueEntry)
    (h : entKey ent ∈ ks ∨ findInDashboard data (jsTrim ent.loginId) = none
      ∨ jsTrim ent.loginId ∈ lg ∨ jsTrim ent.loginId ∈ ex) :
    resurfacePhase data lg ex dse ks (ent :: rest) =
      resurfacePhase data lg ex dse ks rest := by
  by_cases hk : entKey ent ∈ ks
  · simp only [resurfacePhase, if_pos hk]
  · rcases h with h | h | h | h
    · exact absurd h hk
    · simp only [resurfacePhase, if_neg hk, h]
    · cases hf : findInDashboard data (jsTrim ent.loginId) with
      | none => simp only [resurfacePhase, if_neg hk, hf]
      | some e0 => simp only [resurfacePhase, if_neg hk, hf, if_pos h]
    · cases hf : findInDashboard data (jsTrim ent.loginId) with
      | none => simp only [resurfacePhase, if_neg hk, hf]
      | some e0 =>
        by_cases hlg : jsTrim ent.loginId ∈ lg
        · simp only [resurfacePhase, if_neg hk, hf, if_pos hlg]
        · simp only [resurfacePhase, if_neg hk, hf, if_neg hlg, if_pos h]

theorem resurfacePhase_cons_push (data : List DataRow) (lg ex : List String)
    (dse : String → String) (ks : List String) (ent : IssueEntry)
    (rest : List IssueEntry) (e0 : String)
    (hk : entKey ent ∉ ks) (hf : findInDashboard data (jsTrim ent.loginId) = some e0)
    (hlg : jsTrim ent.loginId ∉ lg) (hex : jsTrim ent.loginId ∉ ex) :
    resurfacePhase data lg ex dse ks (ent :: rest) =
      ((resurfacePhase data lg ex dse (entKey ent :: ks) rest).1,
        resurfacedRow ent (if e0 = "" ∨ jsTrim e0 = "" then dse (jsTrim ent.loginId) else e0)
          :: (resurfacePhase data lg ex dse (entKey ent :: ks) rest).2.1,
        ent :: (resurfacePhase data lg ex dse (entKey ent :: ks) rest).2.2) := by
  simp only [resurfacePhase, if_neg hk, hf, if_neg hlg, if_neg hex]

theorem resurfacePhase_sub (data : List DataRow) (lg ex : List String)
    (dse : String → String) :
    ∀ (entries : List IssueEntry) (ks : List String) (w : WorkRow),
      w ∈ (resurfacePhase data lg ex dse ks entries).2.1 →
      ∃ ent, ent ∈ entries ∧ ∃ email, w = resurfacedRow ent email
        ∧ jsTrim ent.loginId ∉ lg ∧ jsTrim ent.loginId ∉ ex
  | [], _, w, h => by cases h
  | ent :: rest, ks, w, h => by
    have wrap : (∃ e2, e2 ∈ rest ∧ ∃ email, w = resurfacedRow e2 email
          ∧ jsTrim e2.loginId ∉ lg ∧ jsTrim e2.loginId ∉ ex) →
        ∃ e2, e2 ∈ ent :: rest ∧ ∃ email, w = resurfacedRow e2 email
          ∧ jsTrim e2.loginId ∉ lg ∧ jsTrim e2.loginId ∉ ex := by
      rintro ⟨e2, h1, h2⟩
      exact ⟨e2, List.mem_cons_of_mem ent h1, h2⟩
    by_cases hk : entKey ent ∈ ks
    · rw [resurfacePhase_cons_skip data lg ex dse ks ent rest (Or.inl hk)] at h
      exact wrap (resurfacePhase_sub data lg ex dse rest ks w h)
    · cases hf : findInDashboard data (jsTrim ent.loginId) with
      | none =>
        rw [resurfacePhase_cons_skip data lg ex dse ks ent rest (Or.inr (Or.inl hf))] at h
        exact wrap (resurfacePhase_sub data lg ex dse rest ks w h)
      | some e0 =>
        by_cases hlg : jsTrim ent.loginId ∈ lg
        · rw [resurfacePhase_cons_skip data lg ex dse ks ent rest
            (Or.inr (Or.inr (Or.inl hlg)))] at h
          exact wrap (resurfacePhase_sub data lg ex dse rest ks w h)
        · by_cases hex : jsTrim ent.loginId ∈ ex
          · rw [resurfacePhase_cons_skip data lg ex dse ks ent rest
              (Or.inr (Or.inr (Or.inr hex)))] at h
            exact wrap (resurfacePhase_sub data lg ex dse rest ks w h)
          · rw [resurfacePhase_cons_push data lg ex dse ks ent rest e0 hk hf hlg hex] at h
            rcases List.mem_cons.mp h with h | h
            · exact ⟨ent, List.mem_cons_self ent rest, _, h, hlg, hex⟩
            · exact wrap (resurfacePhase_sub data lg ex dse rest _ w h)

theorem resurfacePhase_fresh (data : List DataRow) (lg ex : List String)
    (dse : String → String) :
    ∀ (entries : List IssueEntry) (ks : List String) (w : WorkRow),
      w ∈ (resurfacePhase data lg ex dse ks entries).2.1 → claimKey w ∉ ks
  | [], _, w, h => by cases h
  | ent :: rest, ks, w, h => by
    by_cases hk : entKey ent ∈ ks
    · rw [resurfacePhase_cons_skip data lg ex dse ks ent rest (Or.inl hk)] at h
      exact resurfacePhase_fresh data lg ex dse rest ks w h
    · cases hf : findInDashboard data (jsTrim ent.loginId) with
      | none =>
        rw [resurfacePhase_cons_skip data lg ex dse ks ent rest (Or.inr (Or.inl hf))] at h
        exact resurfacePhase_fresh data lg ex dse rest ks w h
      | some e0 =>
        by_cases hlg : jsTrim ent.loginId ∈ lg
        · rw [resurfacePhase_cons_skip data lg ex dse ks ent rest
            (Or.inr (Or.inr (Or.inl hlg)))] at h
          exact resurfacePhase_fresh data lg ex dse rest ks w h
        · by_cases hex : jsTrim ent.loginId ∈ ex
          · rw [resurfacePhase_cons_skip data lg ex dse ks ent rest
              (Or.inr (Or.inr (Or.inr hex)))] at h
            exact resurfacePhase_fresh data lg ex dse rest ks w h
          · rw [resurfacePhase_cons_push data lg ex dse ks ent rest e0 hk hf hlg hex] at h
            rcases List.mem_cons.mp h with h | h
            · subst h
              rw [claimKey_resurfacedRow]
              exact hk
            · have h2 := resurfacePhase_fresh data lg ex dse rest _ w h
              intro c
              exact h2 (List.mem_cons_of_mem _ c)

theorem resurfacePhase_keys_iff (data : List DataRow) (lg ex : List String)
    (dse : String → String) :
    ∀ (entries : List IssueEntry) (ks : List String) (k : String),
      k ∈ (resurfacePhase data lg ex dse ks entries).1 ↔
        k ∈ ks ∨ k ∈ (resurfacePhase data lg ex dse ks entries).2.1.map claimKey
  | [], ks, k => by simp [resurfacePhase]
  | ent :: rest, ks, k => by
    by_cases hk : entKey ent ∈ ks
    · rw [resurfacePhase_cons_skip data lg ex dse ks ent rest (Or.inl hk)]
      exact resurfacePhase_keys_iff data lg ex dse rest ks k
    · cases hf : findInDashboard data (jsTrim ent.loginId) with
      | none =>
        rw [resurfacePhase_cons_skip data lg ex dse ks ent rest (Or.inr (Or.inl hf))]
        exact resurfacePhase_keys_iff data lg ex dse rest ks k
      | some e0 =>
        by_cases hlg : jsTrim ent.loginId ∈ lg
        · rw [resurfacePhase_cons_skip data lg ex dse ks ent rest
            (Or.inr (Or.inr (Or.inl hlg)))]
          exact resurfacePhase_keys_iff data lg ex dse rest ks k
        · by_cases hex : jsTrim ent.loginId ∈ ex
          · rw [resurfacePhase_cons_skip data lg ex dse ks ent rest
              (Or.inr (Or.inr (Or.inr hex)))]
            exact resurfacePhase_keys_iff data lg ex dse rest ks k
          · rw [resurfacePhase_cons_push data lg ex dse ks ent rest e0 hk hf hlg hex]
            simp only [List.map_cons, List.mem_cons, claimKey_resurfacedRow]
            rw [resurfacePhase_keys_iff data lg ex dse rest (entKey ent :: ks) k]
            simp only [List.mem_cons]
            tauto

theorem resurfacePhase_nodup (data : List DataRow) (lg ex : List String)
    (dse : String → String) :
    ∀ (entries : List IssueEntry) (ks : List String),
      ((resurfacePhase data lg ex dse ks entries).2.1.map claimKey).Nodup
  | [], _ => List.nodup_nil
  | ent :: rest, ks => by
    by_cases hk : entKey ent ∈ ks
    · rw [resurfacePhase_cons_skip data lg ex dse ks ent rest (Or.inl hk)]
      exact resurfacePhase_nodup data lg ex dse rest ks
    · cases hf : findInDashboard data (jsTrim ent.loginId) with
      | none =>
        rw [resurfacePhase_cons_skip data lg ex dse ks ent rest (Or.inr (Or.inl hf))]
        exact resurfacePhase_nodup data lg ex dse rest ks
      | some e0 =>
        by_cases hlg : jsTrim ent.loginId ∈ lg
        · rw [resurfacePhase_cons_skip data lg ex dse ks ent rest
            (Or.inr (Or.inr (Or.inl hlg)))]
          exact resurfacePhase_nodup data lg ex dse rest ks
        · by_cases hex : jsTrim ent.loginId ∈ ex
          · rw [resurfacePhase_cons_skip data lg ex dse ks ent rest
              (Or.inr (Or.inr (Or.inr hex)))]
            exact resurfacePhase_nodup data lg ex dse rest ks
          · rw [resurfacePhase_cons_push data lg ex dse ks ent rest e0 hk hf hlg hex]
            simp only [List.map_cons, claimKey_resurfacedRow]
            refine List.nodup_cons.mpr ⟨?_, resurfacePhase_nodup data lg ex dse rest _⟩
            intro c
            rcases List.mem_map.mp c with ⟨w, hw, he⟩
            have := resurfacePhase_fresh data lg ex dse rest _ w hw
            rw [he] at this
            exact this (List.mem_cons_self _ _)

theorem resurfacePhase_entry_final (data : List DataRow) (lg ex : List String)
    (dse : String → String) :
    ∀ (entries : List IssueEntry) (ks : List String) (ent : IssueEntry),
      ent ∈ entries →
      entKey ent ∈ (resurfacePhase data lg ex dse ks entries).1
        ∨ findInDashboard data (jsTrim ent.loginId) = none
        ∨ jsTrim ent.loginId ∈ lg ∨ jsTrim ent.loginId ∈ ex
  | [], _, _, h => by cases h
  | e2 :: rest, ks, ent, h => by
    have keysmono : ∀ ks2 k, k ∈ ks2 →
        k ∈ (resurfacePhase data lg ex dse ks2 rest).1 := by
      intro ks2 k hk2
      exact (resurfacePhase_keys_iff data lg ex dse rest ks2 k).mpr (Or.inl hk2)
    by_cases hk : entKey e2 ∈ ks
    · rw [resurfacePhase_cons_skip data lg ex dse ks e2 rest (Or.inl hk)]
      rcases List.mem_cons.mp h with h | h
      · subst h
        exact Or.inl (keysmono ks _ hk)
      · exact resurfacePhase_entry_final data lg ex dse rest ks ent h
    · cases hf : findInDashboard data (jsTrim e2.loginId) with
      | none =>
        rw [resurfacePhase_cons_skip data lg ex dse ks e2 rest (Or.inr (Or.inl hf))]
        rcases List.mem_cons.mp h with h | h
        · subst h
          exact Or.inr (Or.inl hf)
        · exact resurfacePhase_entry_final data lg ex dse rest ks ent h
      | some e0 =>
        by_cases hlg : jsTrim e2.loginId ∈ lg
        · rw [resurfacePhase_cons_skip data lg ex dse ks e2 rest
            (Or.inr (Or.inr (Or.inl hlg)))]
          rcases List.mem_cons.mp h with h | h
          · subst h
            exact Or.inr (Or.inr (Or.inl hlg))
          · exact resurfacePhase_entry_final data lg ex dse rest ks ent h
        · by_cases hex : jsTrim e2.loginId ∈ ex
          · rw [resurfacePhase_cons_skip data lg ex dse ks e2 rest
              (Or.inr (Or.inr (Or.inr hex)))]
            rcases List.mem_cons.mp h with h | h
            · subst h
              exact Or.inr (Or.inr (Or.inr hex))
            · exact resurfacePhase_entry_final data lg ex dse rest ks ent h
          · rw [resurfacePhase_cons_push data lg ex dse ks e2 rest e0 hk hf hlg hex]
            rcases List.mem_cons.mp h with h | h
            · subst h
              exact Or.inl (keysmono _ _ (List.mem_cons_self _ _))
            · exact resurfacePhase_entry_final data lg ex dse rest _ ent h

theorem resurfacePhase_skip_all (data : List DataRow) (lg ex : List String)
    (dse : String → String) :
    ∀ (entries : List IssueEntry) (ks : List String),
      (∀ ent ∈ entries, entKey ent ∈ ks
        ∨ findInDashboard data (jsTrim ent.loginId) = none
        ∨ jsTrim ent.loginId ∈ lg ∨ jsTrim ent.loginId ∈ ex) →
      resurfacePhase data lg ex dse ks entries = (ks, [], [])
  | [], ks, _ => rfl
  | ent :: rest, ks, h => by
    rw [resurfacePhase_cons_skip data lg ex dse ks ent rest
      (h ent (List.mem_cons_self ent rest))]
    exact resurfacePhase_skip_all data lg ex dse rest ks
      fun e2 he2 => h e2 (List.mem_cons_of_mem ent he2)

/-!
## Lemmas: the email backfill pass
-/

theorem fillRow_cases (data : List DataRow) (dse : String → String) (row : WorkRow) :
    fillRow data dse row = row ∨
      ∃ s, s ≠ "" ∧ jsTrim s ≠ "" ∧ fillRow data dse row = { row with c2 := .str s } := by
  unfold fillRow
  dsimp only
  by_cases h1 : keepId row.c0 ≠ "" ∧ jsTrim (jsToString (jsOrEmptyStr row.c2)) = ""
  · rw [if_pos h1]
    by_cases h2 : (if lookupEmailInData data (keepId row.c0) = ""
          ∨ jsTrim (lookupEmailInData data (keepId row.c0)) = ""
        then dse (keepId row.c0) else lookupEmailInData data (keepId row.c0)) ≠ ""
        ∧ jsTrim (if lookupEmailInData data (keepId row.c0) = ""
          ∨ jsTrim (lookupEmailInData data (keepId row.c0)) = ""
        then dse (keepId row.c0) else lookupEmailInData data (keepId row.c0)) ≠ ""
    · rw [if_pos h2]
      exact Or.inr ⟨_, h2.1, h2.2, rfl⟩
    · rw [if_neg h2]
      exact Or.inl rfl
  · rw [if_neg h1]
    exact Or.inl rfl

theorem fillRow_c0 (data : List DataRow) (dse : String → String) (row : WorkRow) :
    (fillRow data dse row).c0 = row.c0 := by
  rcases fillRow_cases data dse row with h | ⟨s, _, _, h⟩ <;> rw [h]

theorem fillRow_c3 (data : List DataRow) (dse : String → String) (row : WorkRow) :
    (fillRow data dse row).c3 = row.c3 := by
  rcases fillRow_cases data dse row with h | ⟨s, _, _, h⟩ <;> rw [h]

theorem fillRow_c4 (data : List DataRow) (dse : String → String) (row : WorkRow) :
    (fillRow data dse row).c4 = row.c4 := by
  rcases fillRow_cases data dse row with h | ⟨s, _, _, h⟩ <;> rw [h]

theorem fillRow_c5 (data : List DataRow) (dse : String → String) (row : WorkRow) :
    (fillRow data dse row).c5 = row.c5 := by
  rcases fillRow_cases data dse row with h | ⟨s, _, _, h⟩ <;> rw [h]

theorem claimKey_fillRow (data : List DataRow) (dse : String → String) (row : WorkRow) :
    claimKey (fillRow data dse row) = claimKey row := by
  rw [claimKey, claimKey, fillRow_c0, fillRow_c3]

theorem fillRow_idem (data : List DataRow) (dse : String → String) (row : WorkRow) :
    fillRow data dse (fillRow data dse row) = fillRow data dse row := by
  rcases fillRow_cases data dse row with h | ⟨s, hs1, hs2, h⟩
  · rw [h, h]
  · rw [h]
    rw [fillRow]
    have hcond : ¬(keepId ({ row with c2 := .str s } : WorkRow).c0 ≠ ""
        ∧ jsTrim (jsToString (jsOrEmptyStr ({ row with c2 := .str s} : WorkRow).c2)) = "") := by
      intro hc
      apply hs2
      have : jsOrEmptyStr (.str s) = .str s := jsOrEmptyStr_str s
      simp only [this] at hc
      exact hc.2
    rw [if_neg hcond]

theorem fillEmails_map_claimKey (data : List DataRow) (dse : String → String)
    (l : List WorkRow) : (fillEmails data dse l).map claimKey = l.map claimKey := by
  rw [fillEmails, List.map_map]
  exact List.map_congr_left fun a _ => claimKey_fillRow data dse a

theorem fillEmails_idem (data : List DataRow) (dse : String → String)
    (l : List WorkRow) :
    fillEmails data dse (fillEmails data dse l) = fillEmails data dse l := by
  rw [fillEmails, fillEmails, List.map_map]
  exact List.map_congr_left fun a _ => fillRow_idem data dse a

theorem fillEmails_length (data : List DataRow) (dse : String → String)
    (l : List WorkRow) : (fillEmails data dse l).length = l.length :=
  List.length_map l (fillRow data dse)

/-!
## Lemmas: the Sent Log and Issue Log digests
-/

theorem mem_loggedToday (subj : Subject) (todayDay : Int) :
    ∀ (sentData : List SentLogRow) (row : SentLogRow), row ∈ sentData →
      jsIsNull (sentIdCol subj row) = false →
      jsTrim (jsToString (sentIdCol subj row)) ≠ "" →
      jsIsNull (sentDateCol subj row) = false →
      jsDay (jsDateMs (sentDateCol subj row)) = todayDay →
      jsTrim (jsToString (sentIdCol subj row)) ∈ loggedToday subj todayDay sentData
  | [], _, h, _, _, _, _ => by cases h
  | r2 :: rest, row, h, h1, h2, h3, h4 => by
    rcases List.mem_cons.mp h with h | h
    · subst h
      rw [loggedToday, if_pos ⟨by rw [h1]; exact Bool.false_ne_true, h2,
        by rw [h3]; exact Bool.false_ne_true, h4⟩]
      exact List.mem_cons_self _ _
    · have ih := mem_loggedToday subj todayDay rest row h h1 h2 h3 h4
      rw [loggedToday]
      by_cases hc : ¬jsIsNull (sentIdCol subj r2) = true
          ∧ jsTrim (jsToString (sentIdCol subj r2)) ≠ ""
          ∧ ¬jsIsNull (sentDateCol subj r2) = true
          ∧ jsDay (jsDateMs (sentDateCol subj r2)) = todayDay
      · rw [if_pos hc]
        exact List.mem_cons_of_mem _ ih
      · rw [if_neg hc]
        exact ih

theorem buildIssueMapsGo_exclude_mono (subj : Subject) (r0 : Nat)
    (row : IssueLogRow) (rest : List IssueLogRow) :
    ∀ x ∈ (buildIssueMapsGo subj (r0 + 1) rest).exclude,
      x ∈ (buildIssueMapsGo subj r0 (row :: rest)).exclude := by
  intro x hx
  rw [buildIssueMapsGo]
  cases hs : subjOfRow row.c0 with
  | none => exact hx
  | some s =>
    dsimp only
    by_cases h1 : s ≠ subj
    · rw [if_pos h1]; exact hx
    · rw [if_neg h1]
      by_cases h2 : jsTrim (jsToString (jsIfNullEmpty row.c1)) = ""
      · rw [if_pos h2]; exact hx
      · rw [if_neg h2]
        by_cases h3 : jsTrim (jsToString (jsOrEmptyStr row.c6)) = "Issue - Archive"
        · rw [if_pos h3]
          exact List.mem_cons_of_mem _ hx
        · rw [if_neg h3]
          by_cases h4 : jsTrim (jsToString (jsOrEmptyStr row.c6)) = "Issue"
          · rw [if_pos h4]; exact hx
          · rw [if_neg h4]; exact hx

theorem mem_buildIssueMaps_exclude (subj : Subject) :
    ∀ (issueData : List IssueLogRow) (r0 : Nat) (row : IssueLogRow),
      row ∈ issueData → subjOfRow row.c0 = some subj →
      jsTrim (jsToString (jsIfNullEmpty row.c1)) ≠ "" →
      jsTrim (jsToString (jsOrEmptyStr row.c6)) = "Issue - Archive" →
      jsTrim (jsToString (jsIfNullEmpty row.c1))
        ∈ (buildIssueMapsGo subj r0 issueData).exclude
  | [], _, _, h, _, _, _ => by cases h
  | r2 :: rest, r0, row, h, h1, h2, h3 => by
    rcases List.mem_cons.mp h with h | h
    · subst h
      rw [buildIssueMapsGo, h1]
      dsimp only
      rw [if_neg (by intro c; exact c rfl)]
      rw [if_neg (fun c => h2 c), if_pos h3]
      exact List.mem_cons_self _ _
    · exact buildIssueMapsGo_exclude_mono subj r0 r2 rest _
        (mem_buildIssueMaps_exclude subj rest (r0 + 1) row h h1 h2 h3)

theorem buildIssueMapsGo_entries_shape (subj : Subject) :
    ∀ (issueData : List IssueLogRow) (r0 : Nat) (ent : IssueEntry),
      ent ∈ (buildIssueMapsGo subj r0 issueData).entries →
      jsTrim ent.loginId = ent.loginId ∧ ent.loginId ≠ ""
  | [], _, _, h => by cases h
  | row :: rest, r0, ent, h => by
    have tail := buildIssueMapsGo_entries_shape subj rest (r0 + 1) ent
    rw [buildIssueMapsGo] at h
    cases hs : subjOfRow row.c0 with
    | none => rw [hs] at h; exact tail h
    | some s =>
      rw [hs] at h
      dsimp only at h
      by_cases h1 : s ≠ subj
      · rw [if_pos h1] at h; exact tail h
      · rw [if_neg h1] at h
        by_cases h2 : jsTrim (jsToString (jsIfNullEmpty row.c1)) = ""
        · rw [if_pos h2] at h; exact tail h
        · rw [if_neg h2] at h
          by_cases h3 : jsTrim (jsToString (jsOrEmptyStr row.c6)) = "Issue - Archive"
          · rw [if_pos h3] at h; exact tail h
          · rw [if_neg h3] at h
            by_cases h4 : jsTrim (jsToString (jsOrEmptyStr row.c6)) = "Issue"
            · rw [if_pos h4] at h
              rcases List.mem_cons.mp h with h | h
              · subst h
                exact ⟨jsTrim_idem _, h2⟩
              · exact tail h
            · rw [if_neg h4] at h; exact tail h

/-!
## Assembly lemmas for `loadOneDashboard`
-/

theorem loadOneDashboard_merged (existing : List WorkRow) (lg ex : List String)
    (nm : NoteMap) (ents : List IssueEntry) (data : List DataRow)
    (dse : String → String) :
    (loadOneDashboard existing lg ex nm ents data dse).merged =
      fillEmails data dse ((leftoverPhase existing).2
        ++ (mergePhase (leftoverPhase existing).1 (candidateRows lg ex nm data)).2
        ++ (resurfacePhase data lg ex dse
            (mergePhase (leftoverPhase existing).1 (candidateRows lg ex nm data)).1
            ents).2.1) := rfl

theorem loadOneDashboard_broughtBack (existing : List WorkRow) (lg ex : List String)
    (nm : NoteMap) (ents : List IssueEntry) (data : List DataRow)
    (dse : String → String) :
    (loadOneDashboard existing lg ex nm ents data dse).broughtBack =
      (resurfacePhase data lg ex dse
        (mergePhase (leftoverPhase existing).1 (candidateRows lg ex nm data)).1
        ents).2.2 := rfl

theorem loadSubject_eq (existing : List WorkRow) (sentData : List SentLogRow)
    (issueData : List IssueLogRow) (data : List DataRow) (dse : String → String)
    (todayDay : Int) (subj : Subject) :
    loadSubject existing sentData issueData data dse todayDay subj =
      loadOneDashboard existing (loggedToday subj todayDay sentData)
        (buildIssueMaps subj issueData).exclude (buildIssueMaps subj issueData).noteMap
        (buildIssueMaps subj issueData).entries data dse := rfl

theorem keepId_of_candId (v : Val) (hv : v ≠ .num 0) (hc : candId v ≠ "") :
    keepId v = candId v := by
  cases v with
  | null => exact absurd rfl hc
  | undef => exact absurd rfl hc
  | str s =>
    have hs : s ≠ "" := by
      intro c; subst c; exact hc (candId_str "")
    rw [candId_str, keepId_str]
  | num n =>
    have hn : n ≠ 0 := fun c => hv (by rw [c])
    show jsTrim (jsToString (jsOrEmptyStr (.num n)))
      = jsTrim (jsToString (jsIfNullEmpty (.num n)))
    have h1 : jsOrEmptyStr (.num n) = .num n := by simp [jsOrEmptyStr, jsTruthy, hn]
    rw [h1]; rfl
  | date t => rfl

theorem count_filter_self {α : Type} [DecidableEq α] (p : α → Bool) (a : α)
    (hp : p a = true) : ∀ l : List α, (l.filter p).count a = l.count a
  | [] => rfl
  | x :: xs => by
    by_cases hx : p x = true
    · rw [List.filter_cons_of_pos hx, List.count_cons, List.count_cons,
        count_filter_self p a hp xs]
    · rw [List.filter_cons_of_neg hx, count_filter_self p a hp xs, List.count_cons]
      have hax : ¬(a == x) = true := by
        intro c
        exact hx (by rw [← eq_of_beq c]; exact hp)
      have hxa : ¬x = a := fun c => hx (by rw [c]; exact hp)
      simp [hax, hxa]

/-- Every row Load adds beyond the preserved leftovers (candidates and
re-surfaced entries alike) passed both the logged-today and the
archive-exclusion guards. -/
theorem loadOneDashboard_added_guards (existing : List WorkRow) (lg ex : List String)
    (nm : NoteMap) (ents : List IssueEntry) (data : List DataRow)
    (dse : String → String) :
    ∀ w ∈ ((loadOneDashboard existing lg ex nm ents data dse).merged.drop
        (leftoverPhase existing).2.length),
      candId w.c0 ∉ lg ∧ candId w.c0 ∉ ex := by
  intro w hw
  rw [loadOneDashboard_merged, fillEmails, List.append_assoc, List.map_append,
    List.drop_left' (List.length_map _ _)] at hw
  rcases List.mem_map.mp hw with ⟨w0, hw0, rfl⟩
  have hc0 : candId (fillRow data dse w0).c0 = candId w0.c0 := by
    rw [fillRow_c0]
  rcases List.mem_append.mp hw0 with h | h
  · have hsub := mergePhase_sub (leftoverPhase existing).1
      (candidateRows lg ex nm data) w0 h
    obtain ⟨_, h2, h3, _⟩ := candidateRows_mem lg ex nm data w0 hsub
    rw [hc0]
    exact ⟨h2, h3⟩
  · obtain ⟨ent, _, email, rfl, h2, h3⟩ :=
      resurfacePhase_sub data lg ex dse ents _ w0 h
    rw [hc0]
    show candId (resurfacedRow ent email).c0 ∉ lg ∧ candId (resurfacedRow ent email).c0 ∉ ex
    rw [resurfacedRow, candId_str]
    exact ⟨h2, h3⟩

/-!
## Claim theorems
-/

/-- C9: the composite-key comparison normalizes the trigger on both sides to
a trimmed string (`normalizeTrigger`), maps `null` and `undefined` trigger
values to the empty string, and therefore a numeric trigger and its string
form produce equal keys across sources. -/
theorem trigger_key_normalization :
    normalizeTrigger .null = "" ∧ normalizeTrigger .undef = ""
    ∧ (∀ s, normalizeTrigger (.str s) = jsTrim s)
    ∧ (∀ n : Int, normalizeTrigger (.num n) = normalizeTrigger (.str (toString n)))
    ∧ (∀ l t1 t2, normalizeTrigger t1 = normalizeTrigger t2 → key l t1 = key l t2)
    ∧ (∀ l (n : Int), key l (.num n) = key l (.str (toString n))) := by
  refine ⟨rfl, rfl, fun s => rfl, fun n => rfl, ?_, ?_⟩
  · intro l t1 t2 h
    rw [key, key, h]
  · intro l n
    rfl

/-- Witness for C9 at a concrete input: the numeric trigger `3` and the
string trigger `" 3 "` yield the same composite key. -/
theorem trigger_key_normalization_witness :
    key (.str "S1") (.num 3) = key (.str "S1") (.str " 3 ") :=
  trigger_key_normalization.2.2.2.2.1 (.str "S1") (.num 3) (.str " 3 ") (by decide)

/-- C2: Move appends each non-blank Sent row exactly once to the subject's
Sent Log block with today's date, appends each Issue / Issue - Archive row
exactly once to the Issue Log with the corresponding tag, removes exactly
the classified rows from the queue, and leaves rows with blank/Not Sent
status or blank loginId unchanged in the queue (the new queue is exactly
the unclassified rows, in order). -/
theorem move_conservation (isMath : Bool) (rows : List WorkRow) (today : Val) :
    (syncDashboardToLog isMath rows today).sentMath
        = (if isMath then (rows.filter sentClass).map (sentAppendOf today) else [])
    ∧ (syncDashboardToLog isMath rows today).sentReading
        = (if isMath then [] else (rows.filter sentClass).map (sentAppendOf today))
    ∧ (syncDashboardToLog isMath rows today).issue
        = (rows.filter issueClass).map
            (issueAppendOf (if isMath then "Math" else "Reading") today)
    ∧ (syncDashboardToLog isMath rows today).newQueue
        = rows.filter (fun r => !(classified r)) := by
  rw [syncDashboardToLog_spec]
  exact ⟨rfl, rfl, rfl, rfl⟩

/-- C10: a queue row with a non-blank loginId whose trimmed, lowercased
status is none of "sent", "issue", "issue - archive", "" or "not sent" is
silently left untouched by Move: it is not classified, appears in neither
log batch, and every occurrence of it survives in the new queue. -/
theorem move_unknown_status_untouched (isMath : Bool) (rows : List WorkRow)
    (today : Val) (r : WorkRow) (hmem : r ∈ rows)
    (hlogin : jsIsNull r.c0 = false)
    (hlogin2 : jsTrim (jsToString r.c0) ≠ "")
    (hs1 : jsLower (moveStatus r) ≠ "sent")
    (hs2 : jsLower (moveStatus r) ≠ "issue")
    (hs3 : jsLower (moveStatus r) ≠ "issue - archive")
    (hs4 : moveStatus r ≠ "")
    (hs5 : jsLower (moveStatus r) ≠ "not sent") :
    classified r = false
    ∧ r ∉ rows.filter issueClass
    ∧ r ∉ rows.filter sentClass
    ∧ (syncDashboardToLog isMath rows today).issue
        = (rows.filter issueClass).map
            (issueAppendOf (if isMath then "Math" else "Reading") today)
    ∧ (syncDashboardToLog isMath rows today).newQueue.count r = rows.count r
    ∧ r ∈ (syncDashboardToLog isMath rows today).newQueue := by
  have hic : issueClass r = false := by
    simp [issueClass, hs2, hs3]
  have hsc : sentClass r = false := by
    simp [sentClass, hs1]
  have hcl : classified r = false := by
    simp [classified, hic, hsc]
  have hspec := syncDashboardToLog_spec isMath rows today
  have hqueue : (syncDashboardToLog isMath rows today).newQueue
      = rows.filter (fun x => !(classified x)) := by rw [hspec]
  have hissue : (syncDashboardToLog isMath rows today).issue
      = (rows.filter issueClass).map
          (issueAppendOf (if isMath then "Math" else "Reading") today) := by rw [hspec]
  refine ⟨hcl, ?_, ?_, hissue, ?_, ?_⟩
  · intro c
    have := (List.mem_filter.mp c).2
    rw [hic] at this
    exact Bool.false_ne_true this
  · intro c
    have := (List.mem_filter.mp c).2
    rw [hsc] at this
    exact Bool.false_ne_true this
  · rw [hqueue]
    exact count_filter_self _ r (by simp [hcl]) rows
  · rw [hqueue]
    exact List.mem_filter.mpr ⟨hmem, by simp [hcl]⟩

/-- Witness for C10 at a concrete input: a row with status "Pending" is kept
verbatim in the queue and logged nowhere. -/
theorem move_unknown_status_untouched_witness :
    (⟨.str "D", .str "d", .str "e", .num 4, .str "Pending", .str ""⟩ : WorkRow)
        ∈ ([⟨.str "D", .str "d", .str "e", .num 4, .str "Pending", .str ""⟩] : List WorkRow)
    ∧ (classified ⟨.str "D", .str "d", .str "e", .num 4, .str "Pending", .str ""⟩ = false
      ∧ (⟨.str "D", .str "d", .str "e", .num 4, .str "Pending", .str ""⟩ : WorkRow)
          ∉ ([⟨.str "D", .str "d", .str "e", .num 4, .str "Pending", .str ""⟩] :
              List WorkRow).filter issueClass
      ∧ (⟨.str "D", .str "d", .str "e", .num 4, .str "Pending", .str ""⟩ : WorkRow)
          ∉ ([⟨.str "D", .str "d", .str "e", .num 4, .str "Pending", .str ""⟩] :
              List WorkRow).filter sentClass
      ∧ (syncDashboardToLog true
            [⟨.str "D", .str "d", .str "e", .num 4, .str "Pending", .str ""⟩]
            (.date 9)).issue
          = (([⟨.str "D", .str "d", .str "e", .num 4, .str "Pending", .str ""⟩] :
              List WorkRow).filter issueClass).map
              (issueAppendOf (if true then "Math" else "Reading") (.date 9))
      ∧ (syncDashboardToLog true
            [⟨.str "D", .str "d", .str "e", .num 4, .str "Pending", .str ""⟩]
            (.date 9)).newQueue.count
              ⟨.str "D", .str "d", .str "e", .num 4, .str "Pending", .str ""⟩
          = ([⟨.str "D", .str "d", .str "e", .num 4, .str "Pending", .str ""⟩] :
              List WorkRow).count
              ⟨.str "D", .str "d", .str "e", .num 4, .str "Pending", .str ""⟩
      ∧ (⟨.str "D", .str "d", .str "e", .num 4, .str "Pending", .str ""⟩ : WorkRow)
          ∈ (syncDashboardToLog true
              [⟨.str "D", .str "d", .str "e", .num 4, .str "Pending", .str ""⟩]
              (.date 9)).newQueue) :=
  ⟨by decide,
    move_unknown_status_untouched true _ (.date 9) _ (by decide) (by decide)
      (by decide) (by decide) (by decide) (by decide) (by decide) (by decide)⟩

/-- C1: after Load, no two rows of the produced work queue share the
composite `(loginId, triggerNumber)` key, provided the invariant held for
the non-blank rows of the queue Load started from (an empty queue included). -/
theorem load_key_uniqueness (existing : List WorkRow) (lg ex : List String)
    (nm : NoteMap) (ents : List IssueEntry) (data : List DataRow)
    (dse : String → String)
    (h : ((existing.filter fun w => !(keepId w.c0 == "")).map claimKey).Nodup) :
    (((loadOneDashboard existing lg ex nm ents data dse).merged).map claimKey).Nodup := by
  rw [loadOneDashboard_merged, fillEmails_map_claimKey]
  rw [List.map_append, List.map_append]
  have hLkeys : (leftoverPhase existing).2.map claimKey = (leftoverPhase existing).1 :=
    (leftoverPhase_keys existing).symm
  have hLnodup : ((leftoverPhase existing).2.map claimKey).Nodup := by
    rw [leftoverPhase_acc]
    exact h
  have hAnodup := mergePhase_nodup (leftoverPhase existing).1 (candidateRows lg ex nm data)
  have hBnodup := resurfacePhase_nodup data lg ex dse ents
    (mergePhase (leftoverPhase existing).1 (candidateRows lg ex nm data)).1
  refine List.nodup_append.mpr ⟨List.nodup_append.mpr ⟨hLnodup, hAnodup, ?_⟩, hBnodup, ?_⟩
  · intro a ha hb
    rcases List.mem_map.mp hb with ⟨w, hw, he⟩
    have hfresh := mergePhase_fresh (leftoverPhase existing).1
      (candidateRows lg ex nm data) w hw
    rw [he] at hfresh
    rw [hLkeys] at ha
    exact hfresh ha
  · intro a ha hb
    rcases List.mem_map.mp hb with ⟨w, hw, he⟩
    have hfresh := resurfacePhase_fresh data lg ex dse ents
      (mergePhase (leftoverPhase existing).1 (candidateRows lg ex nm data)).1 w hw
    rw [he] at hfresh
    apply hfresh
    rcases List.mem_append.mp ha with ha | ha
    · rw [hLkeys] at ha
      exact (mergePhase_keys_iff _ _ a).mpr (Or.inl ha)
    · exact (mergePhase_keys_iff _ _ a).mpr (Or.inr ha)

/-- Witness for C1 at a concrete input: a one-row queue plus a two-row
dashboard yields a queue with pairwise-distinct composite keys. -/
theorem load_key_uniqueness_witness :
    ((([⟨.str "A", .str "a", .str "e", .num 1, .str "Not Sent", .str ""⟩] :
        List WorkRow).filter fun w => !(keepId w.c0 == "")).map claimKey).Nodup
    ∧ (((loadOneDashboard
          [⟨.str "A", .str "a", .str "e", .num 1, .str "Not Sent", .str ""⟩]
          [] [] (fun _ _ => none) []
          [⟨.str "A", .str "a2", .str "SEND EMAIL", .str "eA", .num 1⟩,
           ⟨.str "B", .str "b", .str "SEND EMAIL", .str "eB", .num 2⟩]
          (fun _ => "")).merged).map claimKey).Nodup :=
  ⟨by decide,
    load_key_uniqueness
      [⟨.str "A", .str "a", .str "e", .num 1, .str "Not Sent", .str ""⟩]
      [] [] (fun _ _ => none) []
      [⟨.str "A", .str "a2", .str "SEND EMAIL", .str "eA", .num 1⟩,
       ⟨.str "B", .str "b", .str "SEND EMAIL", .str "eB", .num 2⟩]
      (fun _ => "") (by decide)⟩

/-- C3: a loginId with a Sent Log entry of the same subject dated in
today's day bucket is excluded from everything Load admits beyond the
preserved leftovers — no candidate (and no re-surfaced row) carries it,
regardless of dashboard eligibility. -/
theorem load_no_same_day_contact (existing : List WorkRow)
    (sentData : List SentLogRow) (issueData : List IssueLogRow)
    (data : List DataRow) (dse : String → String) (todayDay : Int)
    (subj : Subject) (row : SentLogRow)
    (hmem : row ∈ sentData)
    (h1 : jsIsNull (sentIdCol subj row) = false)
    (h2 : jsTrim (jsToString (sentIdCol subj row)) ≠ "")
    (h3 : jsIsNull (sentDateCol subj row) = false)
    (h4 : jsDay (jsDateMs (sentDateCol subj row)) = todayDay) :
    ∀ w ∈ ((loadSubject existing sentData issueData data dse todayDay subj).merged.drop
        (leftoverPhase existing).2.length),
      candId w.c0 ≠ jsTrim (jsToString (sentIdCol subj row)) := by
  intro w hw c
  have hlg := mem_loggedToday subj todayDay sentData row hmem h1 h2 h3 h4
  rw [loadSubject_eq] at hw
  have hg := (loadOneDashboard_added_guards existing _ _ _ _ data dse w hw).1
  rw [c] at hg
  exact hg hlg

/-- Witness for C3 at a concrete input: with "S1" logged today, the only
admitted row carries "B", whose loginId differs from "S1". -/
theorem load_no_same_day_contact_witness :
    (⟨.str "B", .str "b", .str "eB", .num 2, .str "Not Sent", .str ""⟩ : WorkRow)
        ∈ ((loadSubject [] [⟨.str "S1", .date 86400000, .null, .null⟩] []
            [⟨.str "S1", .str "s", .str "SEND EMAIL", .str "eS", .num 1⟩,
             ⟨.str "B", .str "b", .str "SEND EMAIL", .str "eB", .num 2⟩]
            (fun _ => "") 1 .math).merged.drop
          (leftoverPhase ([] : List WorkRow)).2.length)
    ∧ candId (Val.str "B")
        ≠ jsTrim (jsToString (sentIdCol .math ⟨.str "S1", .date 86400000, .null, .null⟩)) :=
  ⟨by decide,
    load_no_same_day_contact [] [⟨.str "S1", .date 86400000, .null, .null⟩] []
      [⟨.str "S1", .str "s", .str "SEND EMAIL", .str "eS", .num 1⟩,
       ⟨.str "B", .str "b", .str "SEND EMAIL", .str "eB", .num 2⟩]
      (fun _ => "") 1 .math ⟨.str "S1", .date 86400000, .null, .null⟩
      (by decide) (by decide) (by decide) (by decide) (by decide)
      ⟨.str "B", .str "b", .str "eB", .num 2, .str "Not Sent", .str ""⟩ (by decide)⟩

/-- C4: a loginId tagged `Issue - Archive` in the Issue Log for a subject is
never added by that subject's Load beyond the preserved leftovers — neither
as a dashboard candidate nor as a re-surfaced Issue entry, even if the
dashboard still flags it SEND EMAIL. -/
theorem load_archive_suppression (existing : List WorkRow)
    (sentData : List SentLogRow) (issueData : List IssueLogRow)
    (data : List DataRow) (dse : String → String) (todayDay : Int)
    (subj : Subject) (irow : IssueLogRow)
    (hmem : irow ∈ issueData)
    (h1 : subjOfRow irow.c0 = some subj)
    (h2 : jsTrim (jsToString (jsIfNullEmpty irow.c1)) ≠ "")
    (h3 : jsTrim (jsToString (jsOrEmptyStr irow.c6)) = "Issue - Archive") :
    ∀ w ∈ ((loadSubject existing sentData issueData data dse todayDay subj).merged.drop
        (leftoverPhase existing).2.length),
      candId w.c0 ≠ jsTrim (jsToString (jsIfNullEmpty irow.c1)) := by
  intro w hw c
  have hex := mem_buildIssueMaps_exclude subj issueData 0 irow hmem h1 h2 h3
  rw [loadSubject_eq] at hw
  have hg := (loadOneDashboard_added_guards existing _ _ _ _ data dse w hw).2
  rw [c] at hg
  exact hg hex

/-- Witness for C4 at a concrete input: with "S1" archived in the Issue Log
and still dashboard-eligible, the only admitted row carries "B". -/
theorem load_archive_suppression_witness :
    (⟨.str "B", .str "b", .str "eB", .num 2, .str "Not Sent", .str ""⟩ : WorkRow)
        ∈ ((loadSubject [] []
            [⟨.str "Math", .str "S1", .str "s", .num 1, .str "bad email",
              .date 0, .str "Issue - Archive"⟩]
            [⟨.str "S1", .str "s", .str "SEND EMAIL", .str "eS", .num 1⟩,
             ⟨.str "B", .str "b", .str "SEND EMAIL", .str "eB", .num 2⟩]
            (fun _ => "") 0 .math).merged.drop
          (leftoverPhase ([] : List WorkRow)).2.length)
    ∧ candId (Val.str "B")
        ≠ jsTrim (jsToString (jsIfNullEmpty (Val.str "S1"))) :=
  ⟨by decide,
    load_archive_suppression [] []
      [⟨.str "Math", .str "S1", .str "s", .num 1, .str "bad email",
        .date 0, .str "Issue - Archive"⟩]
      [⟨.str "S1", .str "s", .str "SEND EMAIL", .str "eS", .num 1⟩,
       ⟨.str "B", .str "b", .str "SEND EMAIL", .str "eB", .num 2⟩]
      (fun _ => "") 0 .math
      ⟨.str "Math", .str "S1", .str "s", .num 1, .str "bad email",
        .date 0, .str "Issue - Archive"⟩
      (by decide) (by decide) (by decide) (by decide)
      ⟨.str "B", .str "b", .str "eB", .num 2, .str "Not Sent", .str ""⟩ (by decide)⟩

/-- Counterexample to C7 as stated: an unarchived Issue-tagged log entry
with an *empty* note exists for `(S1, 3)` and `S1` is dashboard-eligible,
yet the candidate is built with status "Not Sent" (not "Issue"), because
the code tests the truthiness of the note string, not the existence of the
entry. -/
theorem load_issue_empty_note_cex :
    (buildIssueMaps .math
        [⟨.str "Math", .str "S1", .str "N", .num 3, .str "", .date 0, .str "Issue"⟩]).noteMap
        "S1" "3" = some ""
    ∧ (loadSubject [] []
        [⟨.str "Math", .str "S1", .str "N", .num 3, .str "", .date 0, .str "Issue"⟩]
        [⟨.str "S1", .str "N", .str "SEND EMAIL", .str "e", .num 3⟩]
        (fun _ => "") 0 .math).merged
      = [⟨.str "S1", .str "N", .str "e", .num 3, .str "Not Sent", .str ""⟩] := by
  exact ⟨rfl, by decide⟩

/-- C7 (amended): an admitted candidate row is built with status `Issue`
and the matching note exactly when the note-map lookup for its
`(loginId, triggerNumber)` yields a *non-empty* note; when the lookup
misses, or the matching unarchived Issue entry's note is the empty string,
the row is built with status `Not Sent` and an empty note. -/
theorem load_candidate_status_amended (lg ex : List String) (nm : NoteMap)
    (data : List DataRow) :
    ∀ w ∈ candidateRows lg ex nm data,
      w.c5 = .str ((nm (candId w.c0) (normalizeTrigger w.c3)).getD "")
      ∧ w.c4 = .str (if (nm (candId w.c0) (normalizeTrigger w.c3)).getD "" = ""
          then "Not Sent" else "Issue") :=
  fun w hw => candidateRows_status lg ex nm data w hw

/-- Witness for the amended C7 at a concrete input: with a non-empty note
"X" recorded for `(S1, 3)`, the candidate is built with status Issue and
note "X". -/
theorem load_candidate_status_amended_witness :
    (⟨.str "S1", .str "N", .str "e", .num 3, .str "Issue", .str "X"⟩ : WorkRow)
        ∈ candidateRows [] []
          (fun i t => if i = "S1" ∧ t = "3" then some "X" else none)
          [⟨.str "S1", .str "N", .str "SEND EMAIL", .str "e", .num 3⟩]
    ∧ ((⟨.str "S1", .str "N", .str "e", .num 3, .str "Issue", .str "X"⟩ : WorkRow).c5
        = .str (((fun i t => if i = "S1" ∧ t = "3" then some "X" else none)
            (candId (Val.str "S1")) (normalizeTrigger (Val.num 3))).getD "")
      ∧ (⟨.str "S1", .str "N", .str "e", .num 3, .str "Issue", .str "X"⟩ : WorkRow).c4
        = .str (if ((fun i t => if i = "S1" ∧ t = "3" then some "X" else none)
            (candId (Val.str "S1")) (normalizeTrigger (Val.num 3))).getD "" = ""
          then "Not Sent" else "Issue")) :=
  ⟨by decide,
    load_candidate_status_amended [] []
      (fun i t => if i = "S1" ∧ t = "3" then some "X" else none)
      [⟨.str "S1", .str "N", .str "SEND EMAIL", .str "e", .num 3⟩]
      ⟨.str "S1", .str "N", .str "e", .num 3, .str "Issue", .str "X"⟩ (by decide)⟩

/-- Counterexample to C8 as stated: when the Issue Log append fails after
the Sent Log append succeeded, the aborted Move leaves the Sent row both
still present in the work queue (no deletion ran) and already written to
the Sent Log — the "no intermediate state" part of the claim is false, and
nothing is rolled back. -/
theorem move_failure_cex :
    (syncDashboardToLogFallible true
        [⟨.str "A", .str "a", .str "e", .num 1, .str "Sent", .str ""⟩,
         ⟨.str "B", .str "b", .str "e", .num 2, .str "Issue", .str "n"⟩]
        (.date 9) false false true).failed = true
    ∧ (⟨.str "A", .str "a", .str "e", .num 1, .str "Sent", .str ""⟩ : WorkRow)
        ∈ (syncDashboardToLogFallible true
            [⟨.str "A", .str "a", .str "e", .num 1, .str "Sent", .str ""⟩,
             ⟨.str "B", .str "b", .str "e", .num 2, .str "Issue", .str "n"⟩]
            (.date 9) false false true).queue
    ∧ (syncDashboardToLogFallible true
        [⟨.str "A", .str "a", .str "e", .num 1, .str "Sent", .str ""⟩,
         ⟨.str "B", .str "b", .str "e", .num 2, .str "Issue", .str "n"⟩]
        (.date 9) false false true).sentMathLog
      = [⟨.str "A", .str "a", .num 1, .date 9⟩] := by decide

/-- C8 (amended): a failing append aborts the whole Move for the subject —
the queue is never mutated on failure (no clears, no deletions run), and on
success the result is exactly the pure Move; however, appends performed
before the failing one are not rolled back, so a row can be left both in
the queue and in a log (see the counterexample), and the error path reports
the exception message rather than the classification counts. -/
theorem move_failure_amended (isMath : Bool) (rows : List WorkRow) (today : Val)
    (f1 f2 f3 : Bool) :
    ((syncDashboardToLogFallible isMath rows today f1 f2 f3).failed = true →
      (syncDashboardToLogFallible isMath rows today f1 f2 f3).queue = rows)
    ∧ ((syncDashboardToLogFallible isMath rows today f1 f2 f3).failed = false →
      syncDashboardToLogFallible isMath rows today f1 f2 f3 =
        ⟨(syncDashboardToLog isMath rows today).sentMath,
         (syncDashboardToLog isMath rows today).sentReading,
         (syncDashboardToLog isMath rows today).issue,
         (syncDashboardToLog isMath rows today).newQueue, false⟩) := by
  rw [syncDashboardToLogFallible]
  dsimp only
  by_cases h1 : (moveScanGo (if isMath = true then "Math" else "Reading")
      isMath 0 rows).sentMathRows ≠ [] ∧ f1 = true
  · rw [if_pos h1]
    exact ⟨fun _ => rfl, fun hc => by simp at hc⟩
  · rw [if_neg h1]
    by_cases h2 : (moveScanGo (if isMath = true then "Math" else "Reading")
        isMath 0 rows).sentReadingRows ≠ [] ∧ f2 = true
    · rw [if_pos h2]
      exact ⟨fun _ => rfl, fun hc => by simp at hc⟩
    · rw [if_neg h2]
      by_cases h3 : (moveScanGo (if isMath = true then "Math" else "Reading")
          isMath 0 rows).issueRows ≠ [] ∧ f3 = true
      · rw [if_pos h3]
        exact ⟨fun _ => rfl, fun hc => by simp at hc⟩
      · rw [if_neg h3]
        exact ⟨fun hc => by simp at hc, fun _ => rfl⟩

/-- Witness for the amended C8 at a concrete input: with no failing append,
the fallible Move agrees with the pure Move. -/
theorem move_failure_amended_witness :
    (syncDashboardToLogFallible true
        [⟨.str "A", .str "a", .str "e", .num 1, .str "Sent", .str ""⟩]
        (.date 9) false false false).failed = false
    ∧ syncDashboardToLogFallible true
        [⟨.str "A", .str "a", .str "e", .num 1, .str "Sent", .str ""⟩]
        (.date 9) false false false =
      ⟨(syncDashboardToLog true
          [⟨.str "A", .str "a", .str "e", .num 1, .str "Sent", .str ""⟩]
          (.date 9)).sentMath,
       (syncDashboardToLog true
          [⟨.str "A", .str "a", .str "e", .num 1, .str "Sent", .str ""⟩]
          (.date 9)).sentReading,
       (syncDashboardToLog true
          [⟨.str "A", .str "a", .str "e", .num 1, .str "Sent", .str ""⟩]
          (.date 9)).issue,
       (syncDashboardToLog true
          [⟨.str "A", .str "a", .str "e", .num 1, .str "Sent", .str ""⟩]
          (.date 9)).newQueue, false⟩ :=
  ⟨by decide,
    (move_failure_amended true
      [⟨.str "A", .str "a", .str "e", .num 1, .str "Sent", .str ""⟩]
      (.date 9) false false false).2 (by decide)⟩

/-- Counterexample to C5 as stated: after Load → status Issue, note "X" →
Move → Load with the same dashboard eligibility, the work row *is*
re-admitted with status Issue and note "X", but the Issue Log row written
by Move is *not* deleted — `broughtBackKeys` stays empty because the key
was re-admitted through the candidate path, and the log row survives the
deletion pass of `loadToWorkArea`. -/
theorem round_trip_deletion_cex :
    (syncDashboardToLog true
        [⟨.str "S1", .str "N", .str "e", .num 3, .str "Issue", .str "X"⟩]
        (.date 7)).issue.map issueAppendToRow
      = [⟨.str "Math", .str "S1", .str "N", .num 3, .str "X", .date 7, .str "Issue"⟩]
    ∧ (loadSubject
        (syncDashboardToLog true
          [⟨.str "S1", .str "N", .str "e", .num 3, .str "Issue", .str "X"⟩]
          (.date 7)).newQueue
        []
        ((syncDashboardToLog true
          [⟨.str "S1", .str "N", .str "e", .num 3, .str "Issue", .str "X"⟩]
          (.date 7)).issue.map issueAppendToRow)
        [⟨.str "S1", .str "N", .str "SEND EMAIL", .str "e", .num 3⟩]
        (fun _ => "") 0 .math).merged
      = [⟨.str "S1", .str "N", .str "e", .num 3, .str "Issue", .str "X"⟩]
    ∧ (loadSubject
        (syncDashboardToLog true
          [⟨.str "S1", .str "N", .str "e", .num 3, .str "Issue", .str "X"⟩]
          (.date 7)).newQueue
        []
        ((syncDashboardToLog true
          [⟨.str "S1", .str "N", .str "e", .num 3, .str "Issue", .str "X"⟩]
          (.date 7)).issue.map issueAppendToRow)
        [⟨.str "S1", .str "N", .str "SEND EMAIL", .str "e", .num 3⟩]
        (fun _ => "") 0 .math).broughtBack = []
    ∧ issueLogAfterLoad
        ((syncDashboardToLog true
          [⟨.str "S1", .str "N", .str "e", .num 3, .str "Issue", .str "X"⟩]
          (.date 7)).issue.map issueAppendToRow)
        (loadSubject
          (syncDashboardToLog true
            [⟨.str "S1", .str "N", .str "e", .num 3, .str "Issue", .str "X"⟩]
            (.date 7)).newQueue
          []
          ((syncDashboardToLog true
            [⟨.str "S1", .str "N", .str "e", .num 3, .str "Issue", .str "X"⟩]
            (.date 7)).issue.map issueAppendToRow)
          [⟨.str "S1", .str "N", .str "SEND EMAIL", .str "e", .num 3⟩]
          (fun _ => "") 0 .math).broughtBack
      = [⟨.str "Math", .str "S1", .str "N", .num 3, .str "X", .date 7, .str "Issue"⟩] := by
  decide

/-- C5 (amended): Load → operator sets status Issue with note X → Move
(which appends the Issue Log entry) → next Load with the same dashboard
eligibility for the same `(loginId, triggerNumber)` re-admits a work row
with status Issue and note X through the *candidate* path; but the Issue
Log row written by Move is NOT deleted — `broughtBackKeys` stays empty, so
the deletion pass leaves the Issue Log unchanged. (Deletion happens only
when an entry is admitted through the re-surface path, i.e. when its key
was not already admitted as a candidate.) -/
theorem round_trip_amended (L X E : String) (N : Val) (n td dayB : Int)
    (dse : String → String)
    (hL : jsTrim L = L) (hL2 : L ≠ "") (hX : X ≠ "") (hE : jsTrim E ≠ "") :
    (syncDashboardToLog true [⟨.str L, N, .str E, .num n, .str "Issue", .str X⟩]
        (.date td)).issue.map issueAppendToRow
      = [⟨.str "Math", .str L, N, .num n, .str X, .date td, .str "Issue"⟩]
    ∧ (syncDashboardToLog true [⟨.str L, N, .str E, .num n, .str "Issue", .str X⟩]
        (.date td)).newQueue = []
    ∧ (loadSubject [] [] [⟨.str "Math", .str L, N, .num n, .str X, .date td, .str "Issue"⟩]
        [⟨.str L, N, .str "SEND EMAIL", .str E, .num n⟩] dse dayB .math).merged
      = [⟨.str L, N, .str E, .num n, .str "Issue", .str X⟩]
    ∧ (loadSubject [] [] [⟨.str "Math", .str L, N, .num n, .str X, .date td, .str "Issue"⟩]
        [⟨.str L, N, .str "SEND EMAIL", .str E, .num n⟩] dse dayB .math).broughtBack = []
    ∧ issueLogAfterLoad [⟨.str "Math", .str L, N, .num n, .str X, .date td, .str "Issue"⟩]
        ((loadSubject [] [] [⟨.str "Math", .str L, N, .num n, .str X, .date td, .str "Issue"⟩]
          [⟨.str L, N, .str "SEND EMAIL", .str E, .num n⟩] dse dayB .math).broughtBack)
      = [⟨.str "Math", .str L, N, .num n, .str X, .date td, .str "Issue"⟩] := by
  have c1 : moveStatus (⟨.str L, N, .str E, .num n, .str "Issue", .str X⟩ : WorkRow)
      = "Issue" := rfl
  have hlogA : hasLogin (⟨.str L, N, .str E, .num n, .str "Issue", .str X⟩ : WorkRow)
      = true := by
    simp [hasLogin, jsIsNull, jsToString, hL, hL2]
  have hic : issueClass (⟨.str L, N, .str E, .num n, .str "Issue", .str X⟩ : WorkRow)
      = true := by
    simp only [issueClass, hlogA, c1]
    rfl
  have hcl : classified (⟨.str L, N, .str E, .num n, .str "Issue", .str X⟩ : WorkRow)
      = true := by
    simp only [classified, hic]
    rfl
  have hmv := syncDashboardToLog_spec true
    [⟨.str L, N, .str E, .num n, .str "Issue", .str X⟩] (.date td)
  have h_issue : (syncDashboardToLog true
      [⟨.str L, N, .str E, .num n, .str "Issue", .str X⟩] (.date td)).issue
      = [⟨"Math", .str L, N, .num n, .str X, .date td, "Issue"⟩] := by
    rw [hmv]
    show List.map (issueAppendOf (if true = true then "Math" else "Reading") (.date td))
        (List.filter issueClass
          [⟨.str L, N, .str E, .num n, .str "Issue", .str X⟩])
      = [⟨"Math", .str L, N, .num n, .str X, .date td, "Issue"⟩]
    simp only [eq_self_iff_true, if_true]
    rw [List.filter_cons_of_pos hic, List.filter_nil, List.map_cons, List.map_nil]
    simp only [issueAppendOf, issueTag, c1]
    rw [if_neg (by decide : ¬ jsLower "Issue" = "issue - archive")]
    rfl
  have h_queue : (syncDashboardToLog true
      [⟨.str L, N, .str E, .num n, .str "Issue", .str X⟩] (.date td)).newQueue = [] := by
    rw [hmv]
    show List.filter (fun r => !classified r)
        [⟨.str L, N, .str E, .num n, .str "Issue", .str X⟩] = []
    rw [List.filter_cons_of_neg (by simp [hcl]), List.filter_nil]
  have e5 : candId (Val.str L) = L := by rw [candId_str, hL]
  have hgo : buildIssueMaps .math
      [⟨.str "Math", .str L, N, .num n, .str X, .date td, .str "Issue"⟩]
      = ⟨[], fun i t => if i = L ∧ t = normalizeTrigger (.num n) then some X else none,
          [⟨L, N, .num n, X, 2⟩]⟩ := by
    have e1 : subjOfRow (Val.str "Math") = some Subject.math := by decide
    have e2 : jsTrim (jsToString (jsIfNullEmpty (Val.str L))) = L := hL
    have e3 : jsTrim (jsToString (jsOrEmptyStr (Val.str "Issue"))) = "Issue" := by decide
    have e4 : jsToString (jsOrEmptyStr (Val.str X)) = X := by
      rw [jsOrEmptyStr_str]
      rfl
    simp only [buildIssueMaps, buildIssueMapsGo, e1, e2, e3, e4, hL2]
    rw [if_neg (fun c => c rfl)]
    rw [if_neg not_false]
    rw [if_neg (by decide : ¬("Issue" = "Issue - Archive"))]
    rfl
  have hout : candidateRows [] ([] : List String)
      (fun i t => if i = L ∧ t = normalizeTrigger (.num n) then some X else none)
      [⟨.str L, N, .str "SEND EMAIL", .str E, .num n⟩]
      = [⟨.str L, N, .str E, .num n, .str "Issue", .str X⟩] := by
    simp only [candidateRows, e5]
    rw [if_neg (by decide : ¬ jsLower (jsTrim (jsToString (jsOrEmptyStr
      (Val.str "SEND EMAIL")))) ≠ "send email")]
    rw [if_neg hL2, if_neg (List.not_mem_nil L), if_neg (List.not_mem_nil L)]
    rw [if_pos (show True ∧ True from ⟨trivial, trivial⟩)]
    dsimp only
    rw [if_pos hX]
    rfl
  have hmerge : mergePhase []
      [⟨.str L, N, .str E, .num n, .str "Issue", .str X⟩]
      = ([key (.str L) (.num n)], [⟨.str L, N, .str E, .num n, .str "Issue", .str X⟩]) := by
    simp only [mergePhase, e5]
    rw [if_neg (List.not_mem_nil _)]
  have hk : entKey ⟨L, N, .num n, X, 2⟩ ∈ [key (.str L) (.num n)] := by
    simp only [entKey, hL]
    exact List.mem_cons_self _ _
  have hres : resurfacePhase [⟨.str L, N, .str "SEND EMAIL", .str E, .num n⟩] [] []
      dse [key (.str L) (.num n)] [⟨L, N, .num n, X, 2⟩]
      = ([key (.str L) (.num n)], [], []) := by
    apply resurfacePhase_skip_all
    intro ent hent
    rw [List.mem_singleton.mp hent]
    exact Or.inl hk
  have hfill : fillRow [⟨.str L, N, .str "SEND EMAIL", .str E, .num n⟩] dse
      ⟨.str L, N, .str E, .num n, .str "Issue", .str X⟩
      = ⟨.str L, N, .str E, .num n, .str "Issue", .str X⟩ := by
    rw [fillRow]
    dsimp only
    rw [if_neg]
    rintro ⟨_, hc⟩
    rw [jsOrEmptyStr_str] at hc
    exact hE hc
  have hlgnil : loggedToday Subject.math dayB [] = [] := rfl
  have hleft : leftoverPhase ([] : List WorkRow) = ([], []) := rfl
  refine ⟨by rw [h_issue]; rfl, h_queue, ?_, ?_, ?_⟩
  · rw [loadSubject_eq, hgo]
    rw [loadOneDashboard_merged]
    dsimp only
    rw [hlgnil, hleft]
    dsimp only
    rw [hout, hmerge]
    dsimp only
    rw [hres]
    dsimp only
    simp only [List.nil_append, List.append_nil, fillEmails, List.map_cons, List.map_nil]
    rw [hfill]
  · rw [loadSubject_eq, hgo]
    rw [loadOneDashboard_broughtBack]
    dsimp only
    rw [hlgnil, hleft]
    dsimp only
    rw [hout, hmerge]
    dsimp only
    rw [hres]
  · rw [loadSubject_eq, hgo]
    rw [loadOneDashboard_broughtBack]
    dsimp only
    rw [hlgnil, hleft]
    dsimp only
    rw [hout, hmerge]
    dsimp only
    rw [hres]
    rfl

/-- Witness for the amended C5 at a concrete input. -/
theorem round_trip_amended_witness :
    jsTrim "S1" = "S1" ∧ "S1" ≠ "" ∧ "X" ≠ "" ∧ jsTrim "e" ≠ ""
    ∧ (syncDashboardToLog true
        [⟨.str "S1", .str "N", .str "e", .num 3, .str "Issue", .str "X"⟩]
        (.date 7)).issue.map issueAppendToRow
      = [⟨.str "Math", .str "S1", .str "N", .num 3, .str "X", .date 7, .str "Issue"⟩] :=
  ⟨by decide, by decide, by decide, by decide,
    (round_trip_amended "S1" "X" "e" (.str "N") 3 7 0 (fun _ => "")
      (by decide) (by decide) (by decide) (by decide)).1⟩

/-- Counterexample to C6 as stated: with a dashboard row whose loginId cell
is the number `0` (admitted as a candidate via the `!= null` check but never
kept as leftover, because `String(0 || '')` is `''`), running Load twice
with identical inputs reorders the queue — the second run drops the `0` row
from the leftovers and re-appends it at the end. -/
theorem load_idempotence_cex :
    (loadSubject
        ((loadSubject [] [] []
          [⟨.num 0, .str "Z", .str "SEND EMAIL", .str "e0", .num 1⟩,
           ⟨.str "A", .str "a", .str "SEND EMAIL", .str "eA", .num 1⟩]
          (fun _ => "") 0 .math).merged)
        [] []
        [⟨.num 0, .str "Z", .str "SEND EMAIL", .str "e0", .num 1⟩,
         ⟨.str "A", .str "a", .str "SEND EMAIL", .str "eA", .num 1⟩]
        (fun _ => "") 0 .math).merged
      ≠ (loadSubject [] [] []
          [⟨.num 0, .str "Z", .str "SEND EMAIL", .str "e0", .num 1⟩,
           ⟨.str "A", .str "a", .str "SEND EMAIL", .str "eA", .num 1⟩]
          (fun _ => "") 0 .math).merged := by decide

/-- C6 (amended): Load is idempotent with unchanged external inputs,
provided no SourceRow's loginId cell is the number `0` (the one falsy
loginId value that the candidate filter admits but the leftover filter
drops): running Load a second time on the queue the first run produced,
with identical Sent Log, Issue Log and dashboard data, yields the same
work queue. -/
theorem load_idempotent_amended (existing : List WorkRow)
    (sentData : List SentLogRow) (issueData : List IssueLogRow)
    (data : List DataRow) (dse : String → String) (todayDay : Int)
    (subj : Subject)
    (hdata : ∀ d ∈ data, d.c0 ≠ Val.num 0) :
    (loadSubject ((loadSubject existing sentData issueData data dse todayDay subj).merged)
        sentData issueData data dse todayDay subj).merged
      = (loadSubject existing sentData issueData data dse todayDay subj).merged := by
  have hQ1 : (loadSubject existing sentData issueData data dse todayDay subj).merged
      = fillEmails data dse ((leftoverPhase existing).2
        ++ (mergePhase (leftoverPhase existing).1
            (candidateRows (loggedToday subj todayDay sentData)
              (buildIssueMaps subj issueData).exclude
              (buildIssueMaps subj issueData).noteMap data)).2
        ++ (resurfacePhase data (loggedToday subj todayDay sentData)
            (buildIssueMaps subj issueData).exclude dse
            (mergePhase (leftoverPhase existing).1
              (candidateRows (loggedToday subj todayDay sentData)
                (buildIssueMaps subj issueData).exclude
                (buildIssueMaps subj issueData).noteMap data)).1
            (buildIssueMaps subj issueData).entries).2.1) := by
    rw [loadSubject_eq, loadOneDashboard_merged]
  set lg := loggedToday subj todayDay sentData with hlg
  set ex := (buildIssueMaps subj issueData).exclude with hex
  set nm := (buildIssueMaps subj issueData).noteMap with hnm
  set ents := (buildIssueMaps subj issueData).entries with hents
  set out := candidateRows lg ex nm data with hout
  set ks1 := (leftoverPhase existing).1 with hks1
  set L := (leftoverPhase existing).2 with hLdef
  set A := (mergePhase ks1 out).2 with hA
  set B := (resurfacePhase data lg ex dse (mergePhase ks1 out).1 ents).2.1 with hB
  set P := L ++ A ++ B with hP
  set Q1 := (loadSubject existing sentData issueData data dse todayDay subj).merged
    with hQ1def
  -- every row of the produced queue survives the leftover filter of a re-run
  have hKeepP : ∀ w ∈ P, keepId w.c0 ≠ "" := by
    intro w hw
    rw [hP] at hw
    rcases List.mem_append.mp hw with hw | hwB
    · rcases List.mem_append.mp hw with hwL | hwA
      · rw [hLdef, leftoverPhase_acc] at hwL
        have hfl := (List.mem_filter.mp hwL).2
        intro c
        rw [c] at hfl
        simp at hfl
      · rw [hA] at hwA
        have hsub := mergePhase_sub ks1 out w hwA
        obtain ⟨⟨d, hd, he⟩, _, _, hcne⟩ := candidateRows_mem lg ex nm data w hsub
        have hne0 : w.c0 ≠ Val.num 0 := by
          rw [he]
          exact hdata d hd
        rw [keepId_of_candId w.c0 hne0 hcne]
        exact hcne
    · rw [hB] at hwB
      obtain ⟨ent, hent, email, heqw, _, _⟩ :=
        resurfacePhase_sub data lg ex dse ents (mergePhase ks1 out).1 w hwB
      rw [hents] at hent
      obtain ⟨htrim, hne⟩ :=
        buildIssueMapsGo_entries_shape subj issueData 0 ent hent
      rw [heqw]
      show keepId (resurfacedRow ent email).c0 ≠ ""
      rw [resurfacedRow, keepId_str, htrim]
      exact hne
  have hKeepQ : ∀ w ∈ Q1, keepId w.c0 ≠ "" := by
    intro w hw
    rw [hQ1] at hw
    rw [fillEmails] at hw
    rcases List.mem_map.mp hw with ⟨w0, hw0, rfl⟩
    rw [fillRow_c0]
    exact hKeepP w0 hw0
  have hL2b : (leftoverPhase Q1).2 = Q1 := leftoverPhase_all Q1 hKeepQ
  have hL2a : (leftoverPhase Q1).1 = Q1.map claimKey := by
    rw [leftoverPhase_keys, hL2b]
  -- the final key set of the first run is the key set of the produced queue
  have hQ1keys : Q1.map claimKey = P.map claimKey := by
    rw [hQ1]
    exact fillEmails_map_claimKey data dse P
  have hks1L : ks1 = L.map claimKey := leftoverPhase_keys existing
  have hfin_iff : ∀ k, k ∈ (resurfacePhase data lg ex dse (mergePhase ks1 out).1 ents).1
      ↔ k ∈ Q1.map claimKey := by
    intro k
    rw [resurfacePhase_keys_iff, mergePhase_keys_iff, hQ1keys, hP]
    rw [List.map_append, List.map_append, List.mem_append, List.mem_append]
    rw [← hA, ← hB]
    rw [hks1L]
  -- the second run adds no candidates
  have hA2 : mergePhase (leftoverPhase Q1).1 out = ((leftoverPhase Q1).1, []) := by
    apply mergePhase_skip_all
    intro w hw
    have h1 := mergePhase_covers ks1 out w hw
    have h2 : claimKey w ∈ (resurfacePhase data lg ex dse (mergePhase ks1 out).1 ents).1 :=
      (resurfacePhase_keys_iff data lg ex dse ents _ _).mpr (Or.inl h1)
    rw [hL2a]
    exact (hfin_iff (claimKey w)).mp h2
  -- the second run re-surfaces nothing
  have hB2 : resurfacePhase data lg ex dse (leftoverPhase Q1).1 ents
      = ((leftoverPhase Q1).1, [], []) := by
    apply resurfacePhase_skip_all
    intro ent hent
    rcases resurfacePhase_entry_final data lg ex dse ents (mergePhase ks1 out).1 ent hent
      with h | h | h | h
    · left
      rw [hL2a]
      exact (hfin_iff (entKey ent)).mp h
    · exact Or.inr (Or.inl h)
    · exact Or.inr (Or.inr (Or.inl h))
    · exact Or.inr (Or.inr (Or.inr h))
  -- assemble the second run
  rw [loadSubject_eq, loadOneDashboard_merged]
  rw [← hlg, ← hex, ← hnm, ← hents]
  rw [← hout]
  rw [hA2]
  dsimp only
  rw [hB2]
  dsimp only
  rw [hL2b]
  simp only [List.append_nil]
  rw [hQ1]
  exact fillEmails_idem data dse P

/-- Witness for the amended C6 at a concrete input: a second Load on the
queue the first produced, with identical inputs, returns it unchanged. -/
theorem load_idempotent_amended_witness :
    (∀ d ∈ ([⟨.str "A", .str "a", .str "SEND EMAIL", .str "eA", .num 1⟩] : List DataRow),
        d.c0 ≠ Val.num 0)
    ∧ (loadSubject
        ((loadSubject [] [] []
          [⟨.str "A", .str "a", .str "SEND EMAIL", .str "eA", .num 1⟩]
          (fun _ => "") 0 .math).merged)
        [] []
        [⟨.str "A", .str "a", .str "SEND EMAIL", .str "eA", .num 1⟩]
        (fun _ => "") 0 .math).merged
      = (loadSubject [] [] []
          [⟨.str "A", .str "a", .str "SEND EMAIL", .str "eA", .num 1⟩]
          (fun _ => "") 0 .math).merged :=
  ⟨by decide,
    load_idempotent_amended [] [] []
      [⟨.str "A", .str "a", .str "SEND EMAIL", .str "eA", .num 1⟩]
      (fun _ => "") 0 .math (by decide)⟩
